import Mathlib

/-!
Verification of the zenbukko course downloader.

This file gives a shallow embedding, in Lean, of the core logic of the
zenbukko downloader (a TypeScript program) and proves properties of that
embedding.  Network and filesystem effects are modelled by explicit
environment functions (for example, a map from URL to fetched text, or a
map from a path to a file size); machine-level JS numbers are modelled by
Nat/Int where only integral values occur in the source.

Sections:
* Http       - the retrying JSON fetcher (src/services/http.ts)
* Hls        - playlist parsing and segment download (src/downloader/hls.ts)
* Session    - cookie filtering (src/session/sessionStore.ts)
* Schemas    - upstream JSON shape normalisation (nnnSchemas.ts)
* Resolve    - batched lesson resolution (src/services/nnnClient.ts)
* Orchestrate - idempotent skip of existing media (src/commands/download.ts)
* Migrate    - legacy chapter folder migration (src/commands/download.ts)
-/

namespace Zenbukko.Http

/-- Errors produced by the fetcher, after src/services/http.ts
(HttpError carries the status and a body snippet of at most 500
characters; NetworkError carries the thrown message).  The url field of
the source records is dropped: it is the constant request url. -/
inductive FetchError where
  | httpError (status : Nat) (bodySnippet : String)
  | networkError (message : String)
deriving Repr, DecidableEq

/-- Discriminated result union of fetchJsonWithRetry. -/
inductive FetchResult (T : Type) where
  | ok (value : T)
  | error (e : FetchError)
deriving Repr, DecidableEq

/-- One simulated response of the server for one attempt:
either the fetch call itself throws (transport failure), or an HTTP
response arrives with a status, a body text, and the outcome of
resp.json() on that body (Except.error models a JSON parse throw). -/
inductive SimResponse (T : Type) where
  | netFail (message : String)
  | http (status : Nat) (bodyText : String) (json : Except String T)

/-- resp.ok of the fetch API: status in the 2xx range. -/
def respOk (status : Nat) : Bool :=
  200 ≤ status && status < 300

/-- The retry loop body of fetchJsonWithRetry.  The source iterates
while attempt ≤ retries; here fuel = retries + 1 - attempt bounds the
iteration count.  lastError threads the source's lastError variable for
the (unreachable) fall-through return after the loop.  The second
component of the result counts requests actually made from this point;
the source performs one backoff delay before each retry, so a total of
n requests means n - 1 delayed retries. -/
def fetchGo {T : Type} (responses : Nat → SimResponse T) (retryOnStatus : Nat → Bool)
    (retries : Nat) : Nat → Option FetchError → Nat → FetchResult T × Nat
  | _, lastError, 0 =>
    (.error (lastError.getD (.networkError "unknown")), 0)
  | attempt, _, fuel + 1 =>
    match responses attempt with
    | .netFail msg =>
      let err := FetchError.networkError msg
      if attempt == retries then (.error err, 1)
      else
        let r := fetchGo responses retryOnStatus retries (attempt + 1) (some err) fuel
        (r.1, r.2 + 1)
    | .http status bodyText json =>
      if respOk status then
        match json with
        | .ok v => (.ok v, 1)
        | .error msg =>
          let err := FetchError.networkError msg
          if attempt == retries then (.error err, 1)
          else
            let r := fetchGo responses retryOnStatus retries (attempt + 1) (some err) fuel
            (r.1, r.2 + 1)
      else
        let err := FetchError.httpError status (bodyText.take 500)
        if !retryOnStatus status || attempt == retries then (.error err, 1)
        else
          let r := fetchGo responses retryOnStatus retries (attempt + 1) (some err) fuel
          (r.1, r.2 + 1)

/-- fetchJsonWithRetry of src/services/http.ts, with the network modelled
as a function from the attempt index to that attempt's response.
Returns the result together with the number of requests made. -/
def fetchJsonWithRetry {T : Type} (responses : Nat → SimResponse T)
    (retries : Nat) (retryOnStatus : Nat → Bool) : FetchResult T × Nat :=
  fetchGo responses retryOnStatus retries 0 none (retries + 1)

end Zenbukko.Http

namespace Zenbukko.Str

/-- Structural char-list model of the JS string primitives used by the
embedded code (String.prototype.startsWith, endsWith, trim, split).  The
Lean core String functions are implemented by well-founded recursion and
do not reduce inside the kernel, so the embedding uses these structurally
recursive equivalents instead. -/
def isSpace (c : Char) : Bool :=
  c = ' ' || c = '\t' || c = '\r' || c = '\n'

/-- Split a char list on a separator character (JS split keeps empty
pieces, as does this). -/
def splitOnChar (sep : Char) : List Char → List (List Char)
  | [] => [[]]
  | c :: cs =>
    let r := splitOnChar sep cs
    if c = sep then [] :: r
    else
      match r with
      | [] => [[c]]
      | h :: t => (c :: h) :: t

/-- Whitespace trimming on char lists (ASCII whitespace; the inputs in
question contain no exotic Unicode whitespace). -/
def trimChars (cs : List Char) : List Char :=
  ((cs.dropWhile isSpace).reverse.dropWhile isSpace).reverse

/-- Bool-valued prefix test on char lists: first argument is the pattern. -/
def headMatches : List Char → List Char → Bool
  | [], _ => true
  | _ :: _, [] => false
  | p :: ps, c :: cs => p = c && headMatches ps cs

/-- JS s.startsWith(pat). -/
def strStarts (s pat : String) : Bool :=
  headMatches pat.data s.data

/-- JS s.endsWith(pat). -/
def strEnds (s pat : String) : Bool :=
  headMatches pat.data.reverse s.data.reverse

/-- JS s.trim(). -/
def strTrim (s : String) : String :=
  String.mk (trimChars s.data)

/-- JS s.slice(1). -/
def strDrop1 (s : String) : String :=
  String.mk (s.data.drop 1)

/-- JS s.split(sep) with a one-character separator. -/
def strSplit (s : String) (sep : Char) : List String :=
  (splitOnChar sep s.data).map String.mk

end Zenbukko.Str

namespace Zenbukko.Hls

open Zenbukko.Str

/-- URLs are modelled as opaque strings. -/
abbrev Url := String

/-- Parsed playlist representation of src/downloader/hls.ts. -/
structure ParsedPlaylist where
  variantUrls : List Url
  segmentUrls : List Url
  isEncrypted : Bool
deriving Repr, DecidableEq

/-- Line splitting of parseM3u8: split on newlines, trim each line, drop
empty lines.  Splitting on the single character then trimming agrees with
the source's split on the regular expression CR?LF because trim also
removes a trailing CR. -/
def playlistLines (text : String) : List String :=
  ((strSplit text '\n').map strTrim).filter (fun l => l ≠ "")

/-- The line loop of parseM3u8.  resolve models the WHATWG URL resolution
new URL(ref, base); the claims hold for every such resolution function.
A stream-info line consults the following line (the source's lines[i+1])
without consuming it, exactly as the source's index-based loop does. -/
def parseLines (resolve : String → Url → Url) (baseUrl : Url) :
    List String → ParsedPlaylist
  | [] => ⟨[], [], false⟩
  | line :: rest =>
    if strStarts line "#EXT-X-KEY" then
      let p := parseLines resolve baseUrl rest
      ⟨p.variantUrls, p.segmentUrls, true⟩
    else if strStarts line "#EXT-X-STREAM-INF" then
      let p := parseLines resolve baseUrl rest
      match rest.head? with
      | some next =>
        if strStarts next "#" then p
        else ⟨resolve next baseUrl :: p.variantUrls, p.segmentUrls, p.isEncrypted⟩
      | none => p
    else if strStarts line "#" then parseLines resolve baseUrl rest
    else
      let p := parseLines resolve baseUrl rest
      ⟨p.variantUrls, resolve line baseUrl :: p.segmentUrls, p.isEncrypted⟩

/-- parseM3u8 of src/downloader/hls.ts. -/
def parseM3u8 (resolve : String → Url → Url) (text : String) (baseUrl : Url) :
    ParsedPlaylist :=
  parseLines resolve baseUrl (playlistLines text)

/-- Outcome of a downloadHlsToFile run. -/
inductive HlsOutcome where
  | fetchFailed (url : Url)
  | encryptedError
  | noSegmentsError
  | ok
deriving Repr, DecidableEq

/-- Trace of a downloadHlsToFile run: which playlist URLs were fetched as
text, which segment URLs were fetched into the output file, and how the
run ended. -/
structure HlsTrace where
  playlistFetches : List Url
  segmentFetches : List Url
  outcome : HlsOutcome
deriving Repr, DecidableEq

/-- Tail of downloadHlsToFile after the media playlist is available
(source lines 34 onward): empty segment list is a hard error, otherwise
the segments are fetched sequentially in list order.  Per-segment fetch
failures are not modelled: no claim depends on them. -/
def finishMedia (fetches : List Url) (media : ParsedPlaylist) : HlsTrace :=
  if media.segmentUrls.isEmpty then ⟨fetches, [], .noSegmentsError⟩
  else ⟨fetches, media.segmentUrls, .ok⟩

/-- downloadHlsToFile of src/downloader/hls.ts over a fetch environment
mapping a URL to the text it serves (none models a failed fetch, which
the source turns into a thrown error).  Mirrors the source faithfully:
the isEncrypted flag is tested only on the playlist fetched first; when
that playlist is a master playlist the last variant is fetched and
parsed, and its isEncrypted flag is never consulted. -/
def downloadHlsToFile (fetchText : Url → Option String)
    (resolve : String → Url → Url) (m3u8Url : Url) : HlsTrace :=
  match fetchText m3u8Url with
  | none => ⟨[m3u8Url], [], .fetchFailed m3u8Url⟩
  | some playlist =>
    let parsed := parseM3u8 resolve playlist m3u8Url
    if parsed.isEncrypted then ⟨[m3u8Url], [], .encryptedError⟩
    else
      match parsed.variantUrls.getLast? with
      | some lastVariant =>
        match fetchText lastVariant with
        | none => ⟨[m3u8Url, lastVariant], [], .fetchFailed lastVariant⟩
        | some mediaText =>
          finishMedia [m3u8Url, lastVariant] (parseM3u8 resolve mediaText lastVariant)
      | none => finishMedia [m3u8Url] (parseM3u8 resolve playlist m3u8Url)

/-- A master playlist declaring a single variant, media.m3u8. -/
def cexMasterText : String :=
  "#EXTM3U\n#EXT-X-STREAM-INF:BANDWIDTH=800000\nmedia.m3u8"

/-- A media playlist whose stream is encrypted (it carries a key line). -/
def cexEncryptedMediaText : String :=
  "#EXTM3U\n#EXT-X-KEY:METHOD=AES-128\n#EXTINF:4.0,\nseg1.ts"

/-- Fetch environment serving the clean master playlist and the encrypted
media playlist. -/
def cexFetchEnv : Url → Option String := fun u =>
  if u = "master.m3u8" then some cexMasterText
  else if u = "media.m3u8" then some cexEncryptedMediaText
  else none

/-- A master playlist declaring three variants in ascending quality. -/
def threeVariantMasterText : String :=
  "#EXTM3U\n#EXT-X-STREAM-INF:BANDWIDTH=1\nv1.m3u8\n#EXT-X-STREAM-INF:BANDWIDTH=2\nv2.m3u8\n#EXT-X-STREAM-INF:BANDWIDTH=3\nv3.m3u8"

/-- Fetch environment serving the three-variant master and the media
playlist of its last variant. -/
def threeVariantFetchEnv : Url → Option String := fun u =>
  if u = "master.m3u8" then some threeVariantMasterText
  else if u = "v3.m3u8" then some "#EXTM3U\nsegA.ts\nsegB.ts"
  else none

end Zenbukko.Hls

namespace Zenbukko.Session

open Zenbukko.Str

/-- Stored cookie of src/session/sessionStore.ts.  The httpOnly, secure
and sameSite attributes are omitted: buildCookieHeader never consults
them.  The JS expires number (epoch seconds) is modelled as an integer;
the claims only compare its order against now. -/
structure StoredCookie where
  name : String
  value : String
  domain : Option String := none
  path : Option String := none
  expires : Option Int := none
deriving Repr, DecidableEq

/-- Stored session.  cookieHeader is some h exactly when the session was
loaded from the legacy shape and carries the raw header string h. -/
structure StoredSession where
  savedAt : String := ""
  userAgent : Option String := none
  cookies : List StoredCookie
  cookieHeader : Option String := none
deriving Repr, DecidableEq

/-- domainMatches of src/session/sessionStore.ts: strip one leading dot,
then exact match or dot-suffix match against the request host. -/
def domainMatches (cookieDomain requestHost : String) : Bool :=
  let cd := if strStarts cookieDomain "." then strDrop1 cookieDomain else cookieDomain
  requestHost == cd || strEnds requestHost ("." ++ cd)

/-- pathMatches of src/session/sessionStore.ts. -/
def pathMatches (cookiePath requestPath : String) : Bool :=
  if !strStarts requestPath "/" then false
  else if !strStarts cookiePath "/" then false
  else if cookiePath == "/" then true
  else strStarts requestPath cookiePath

/-- The filter predicate inside buildCookieHeader (source lines 91-95):
defaulted domain and path must match, and the cookie must not be expired
(expires undefined, or -1, or strictly greater than now). -/
def cookieIncluded (c : StoredCookie) (host requestPath : String) (nowSec : Int) : Bool :=
  let domain := c.domain.getD host
  let cookiePath := c.path.getD "/"
  let notExpired :=
    match c.expires with
    | none => true
    | some e => e == -1 || nowSec < e
  notExpired && domainMatches domain host && pathMatches cookiePath requestPath

/-- Name extraction used for deduplication: the part of the pair before
the first equals sign (the whole pair when there is none). -/
def pairName (pair : String) : String :=
  match strSplit pair '=' with
  | [] => pair
  | h :: _ => h

/-- One step of the dedupe Map: setting an existing key replaces the
value in place, a new key is appended (JS Map insertion-order
semantics). -/
def upsertPair (acc : List (String × String)) (name pair : String) :
    List (String × String) :=
  if acc.any (fun kv => kv.1 == name) then
    acc.map (fun kv => if kv.1 == name then (name, pair) else kv)
  else acc ++ [(name, pair)]

/-- Deduplicate name=value pairs by name, keeping the last value. -/
def dedupeKeepLast (pairs : List String) : List String :=
  (pairs.foldl (fun acc p => upsertPair acc (pairName p) p) []).map (fun kv => kv.2)

/-- JS Array.join with separator "; ". -/
def joinPairs : List String → String
  | [] => ""
  | [p] => p
  | p :: ps => p ++ "; " ++ joinPairs ps

/-- The filtered, rendered name=value pairs of buildCookieHeader. -/
def filteredPairs (session : StoredSession) (host requestPath : String)
    (nowSec : Int) : List String :=
  (session.cookies.filter (fun c => cookieIncluded c host requestPath nowSec)).map
    (fun c => c.name ++ "=" ++ c.value)

/-- The non-legacy branch of buildCookieHeader: filter, render,
deduplicate, join.  url.pathname OR-defaults to "/" when empty. -/
def buildFromCookies (session : StoredSession) (host pathname : String)
    (nowSec : Int) : String :=
  let requestPath := if pathname = "" then "/" else pathname
  joinPairs (dedupeKeepLast (filteredPairs session host requestPath nowSec))

/-- buildCookieHeader of src/session/sessionStore.ts, with the target URL
split into its hostname and pathname and now passed explicitly. -/
def buildCookieHeader (session : StoredSession) (host pathname : String)
    (nowSec : Int) : String :=
  match session.cookieHeader with
  | some h => if strTrim h = "" then buildFromCookies session host pathname nowSec else h
  | none => buildFromCookies session host pathname nowSec

/-- The inclusion condition exactly as claim C5 states it: exact domain
match, or suffix match only when the cookie domain has a leading dot;
cookie path (defaulting to "/") a prefix of the target path; expiry
absent, -1, or strictly in the future. -/
def claimCookieIncluded (c : StoredCookie) (host requestPath : String)
    (nowSec : Int) : Bool :=
  let notExpired :=
    match c.expires with
    | none => true
    | some e => e == -1 || nowSec < e
  let d := c.domain.getD host
  notExpired && (host == d || (strStarts d "." && strEnds host d))
    && strStarts requestPath (c.path.getD "/")

/-- The inclusion condition as amended: the leading dot, when present, is
stripped and suffix matching applies to every cookie domain; the cookie
path (defaulting to "/") must itself start with "/" and be a string
prefix of the target path; expiry as before. -/
def amendedCookieIncluded (c : StoredCookie) (host requestPath : String)
    (nowSec : Int) : Bool :=
  let notExpired :=
    match c.expires with
    | none => true
    | some e => e == -1 || nowSec < e
  let d := c.domain.getD host
  let ds := if strStarts d "." then strDrop1 d else d
  let p := c.path.getD "/"
  notExpired && (host == ds || strEnds host ("." ++ ds))
    && (strStarts p "/" && strStarts requestPath p)

/-- Cookie whose domain has no leading dot, scoped at the parent domain
of the request host. -/
def cexCookie : StoredCookie :=
  { name := "a", value := "b", domain := some "nnn.ed.nico", path := some "/",
    expires := none }

/-- Session holding only cexCookie, with no legacy raw header. -/
def cexSession : StoredSession :=
  { savedAt := "2024-01-01T00:00:00Z", cookies := [cexCookie] }

end Zenbukko.Session

namespace Zenbukko.Schemas

open Zenbukko.Str

/-- Normalized section kind of nnnSchemas.ts. -/
inductive SectionKind where
  | lesson
  | movie
  | other
deriving Repr, DecidableEq

/-- Section of the legacy chapter shape (data envelope, snake_case):
content_id may be a number or a string. -/
structure LegacySection where
  id : Int
  title : Option String := none
  section_type : String
  content_id : Option (Int ⊕ String) := none
deriving Repr, DecidableEq

/-- Legacy chapter details payload (the data envelope's contents). -/
structure LegacyChapterDetails where
  title : Option String := none
  sections : List LegacySection
deriving Repr, DecidableEq

/-- Section of the current chapter shape. -/
structure CurrentSection where
  id : Int
  title : Option String := none
  resource_type : Option String := none
deriving Repr, DecidableEq

/-- Current chapter details payload.  The source accepts the section list
either nested under the chapter object or as a sibling field; both
normalise to the same section list, modelled here directly. -/
structure CurrentChapterDetails where
  title : Option String := none
  sections : List CurrentSection
deriving Repr, DecidableEq

/-- Normalized chapter section. -/
structure NormalizedSection where
  id : Int
  title : Option String := none
  kind : SectionKind
deriving Repr, DecidableEq

/-- Normalized chapter details. -/
structure NormalizedChapterDetails where
  title : Option String := none
  sections : List NormalizedSection
deriving Repr, DecidableEq

/-- Chapter details input after zod's ordered disjunction has picked the
matching shape: inl is the legacy shape (tried first), inr the current
shape. -/
abbrev ChapterDetailsInput := LegacyChapterDetails ⊕ CurrentChapterDetails

/-- Section id of the legacy shape: a string content_id goes through the
JS Number coercion (modelled by the jsNumber parameter), a numeric one is
used as is, and a missing one falls back to the section id. -/
def legacySectionId (jsNumber : String → Int) (s : LegacySection) : Int :=
  match s.content_id with
  | some (.inr str) => jsNumber str
  | some (.inl n) => n
  | none => s.id

/-- parseChapterDetails of nnnSchemas.ts.  In the legacy branch the kind
is lesson exactly for section_type "lesson" and other for everything
else; in the current branch resource_type "lesson" and "movie" map to
their kinds and everything else to other. -/
def parseChapterDetails (jsNumber : String → Int) :
    ChapterDetailsInput → NormalizedChapterDetails
  | .inl leg =>
    ⟨leg.title, leg.sections.map (fun s =>
      ⟨legacySectionId jsNumber s, s.title,
        if s.section_type = "lesson" then .lesson else .other⟩)⟩
  | .inr cur =>
    ⟨cur.title, cur.sections.map (fun s =>
      ⟨s.id, s.title,
        if s.resource_type = some "lesson" then .lesson
        else if s.resource_type = some "movie" then .movie
        else .other⟩)⟩

/-- Discriminator-to-kind mapping of the amended claim C6, legacy shape:
"lesson" maps to lesson and any other value, including "movie", maps to
other. -/
def claimLegacyKind (st : String) : SectionKind :=
  if st = "lesson" then .lesson else .other

/-- Discriminator-to-kind mapping claim C6 states for the current shape:
"lesson" to lesson, "movie" to movie, anything else to other. -/
def claimCurrentKind (rt : Option String) : SectionKind :=
  if rt = some "lesson" then .lesson
  else if rt = some "movie" then .movie
  else .other

/-- A legacy chapter payload holding one section typed movie. -/
def cexLegacyChapter : LegacyChapterDetails :=
  { sections := [{ id := 10, section_type := "movie" }] }

end Zenbukko.Schemas

namespace Zenbukko.Resolve

open Zenbukko.Str

/-- Kind of an enqueued resolution item: only lesson and movie sections
are enqueued (nnnClient.ts line 212). -/
inductive LessonKind where
  | lesson
  | movie
deriving Repr, DecidableEq

/-- Normalized lesson reference of nnnSchemas.ts. -/
structure NormalizedRef where
  title : Option String := none
  contentUrl : String
deriving Repr, DecidableEq

/-- Normalized multi-part lesson part. -/
structure NormalizedPart where
  title : Option String := none
  videoUrl : String
  references : List NormalizedRef
deriving Repr, DecidableEq

/-- Normalized lesson of the v1 endpoint. -/
structure NormalizedLessonV1 where
  title : Option String := none
  videoUrl : String
  references : List NormalizedRef
  parts : Option (List NormalizedPart) := none
deriving Repr, DecidableEq

/-- Normalized movie of the v2 endpoint. -/
structure NormalizedMovieV2 where
  title : Option String := none
  videoUrl : String
  referencePageUrls : List String
deriving Repr, DecidableEq

/-- Reference entry of the raw lesson payloads (content_url validated by
zod as a nonempty string). -/
structure RefInput where
  title : Option String := none
  content_url : String
deriving Repr, DecidableEq

/-- Raw multi-part entry of the current lesson shape.  archiveHls
flattens the source's optional archive.url.hls chain into one optional
url. -/
structure PartInput where
  title : Option String := none
  video_url : Option String := none
  archiveHls : Option String := none
  references : Option (List RefInput) := none
deriving Repr, DecidableEq

/-- Raw current lesson shape (the lesson envelope's contents): contents,
units and items are the three multi-part field names tried in priority
order. -/
structure LessonCurrentInput where
  title : Option String := none
  video_url : Option String := none
  archiveHls : Option String := none
  references : Option (List RefInput) := none
  contents : Option (List PartInput) := none
  units : Option (List PartInput) := none
  items : Option (List PartInput) := none
deriving Repr, DecidableEq

/-- Raw legacy lesson shape (the data envelope's contents): video_url is
required and url-validated. -/
structure LessonLegacyInput where
  title : Option String := none
  video_url : String
  references : Option (List RefInput) := none
deriving Repr, DecidableEq

/-- Lesson input after zod's ordered disjunction has picked the matching
shape: inl is the legacy shape (tried first), inr the current shape. -/
abbrev LessonV1Input := LessonLegacyInput ⊕ LessonCurrentInput

/-- Raw movie video entry: hlsUrl flattens files.hls.url. -/
structure MovieVideo where
  hlsUrl : Option String := none
deriving Repr, DecidableEq

/-- Raw movie reference entry. -/
structure MovieRef where
  content_urls : Option (List String) := none
deriving Repr, DecidableEq

/-- Raw movie v2 payload. -/
structure MovieV2Input where
  title : Option String := none
  videos : Option (List MovieVideo) := none
  references : Option (List MovieRef) := none
deriving Repr, DecidableEq

/-- zod z.string().url() on an optional field, with the url test isUrl
kept abstract: every claim below holds for any url validator, and the
hypotheses only require that the empty string is not a valid URL. -/
def optUrlOk (isUrl : String → Bool) : Option String → Bool
  | none => true
  | some u => isUrl u

/-- zod z.string().min(1) on a reference content_url. -/
def refOk (r : RefInput) : Bool :=
  r.content_url != ""

/-- zod validation of one raw part. -/
def partOk (isUrl : String → Bool) (p : PartInput) : Bool :=
  optUrlOk isUrl p.video_url && optUrlOk isUrl p.archiveHls
    && (p.references.getD []).all refOk

/-- zod validation of the current lesson shape. -/
def lessonCurrentOk (isUrl : String → Bool) (l : LessonCurrentInput) : Bool :=
  optUrlOk isUrl l.video_url && optUrlOk isUrl l.archiveHls
    && (l.references.getD []).all refOk
    && (l.contents.getD []).all (partOk isUrl)
    && (l.units.getD []).all (partOk isUrl)
    && (l.items.getD []).all (partOk isUrl)

/-- zod validation of the legacy lesson shape. -/
def lessonLegacyOk (isUrl : String → Bool) (l : LessonLegacyInput) : Bool :=
  isUrl l.video_url && (l.references.getD []).all refOk

/-- zod validation of the movie payload. -/
def movieOk (isUrl : String → Bool) (m : MovieV2Input) : Bool :=
  (m.videos.getD []).all (fun v => optUrlOk isUrl v.hlsUrl)
    && (m.references.getD []).all (fun r => (r.content_urls.getD []).all isUrl)

/-- normalizeRefs of parseLessonV1. -/
def normRefs (rs : List RefInput) : List NormalizedRef :=
  rs.map (fun r => ⟨r.title, r.content_url⟩)

/-- parseMovieV2 of nnnSchemas.ts: schema validation, then
videos[0].files.hls.url is required, and all reference content_urls are
flattened and filtered to the trim-nonempty ones. -/
def parseMovieV2 (isUrl : String → Bool) (m : MovieV2Input) :
    Except String NormalizedMovieV2 :=
  if movieOk isUrl m then
    match (m.videos.getD []).head? with
    | some v =>
      match v.hlsUrl with
      | some videoUrl =>
        .ok ⟨m.title, videoUrl,
          ((m.references.getD []).flatMap (fun r => r.content_urls.getD [])).filter
            (fun u => strTrim u != "")⟩
      | none => .error "Could not find an HLS URL in movie response"
    | none => .error "Could not find an HLS URL in movie response"
  else .error "SchemaError: movie"

/-- The parts mapper of parseLessonV1: a part needs video_url or the
archive hls url; per-part references default to the lesson-level raw
references. -/
def mkParts (lessonRefsRaw : List RefInput) (ps : List PartInput) :
    List NormalizedPart :=
  ps.filterMap (fun p =>
    match p.video_url.orElse (fun _ => p.archiveHls) with
    | none => none
    | some videoUrl => some ⟨p.title, videoUrl, normRefs (p.references.getD lessonRefsRaw)⟩)

/-- The multi-part source selection of parseLessonV1: the first nonempty
array among contents, units, items, in that priority order. -/
def partsSourceOf (cur : LessonCurrentInput) : Option (List PartInput) :=
  if (cur.contents.getD []) ≠ [] then some (cur.contents.getD [])
  else if (cur.units.getD []) ≠ [] then some (cur.units.getD [])
  else if (cur.items.getD []) ≠ [] then some (cur.items.getD [])
  else none

/-- The single-video tail of parseLessonV1's current branch: video_url or
archive.url.hls is required. -/
def fallbackLesson (cur : LessonCurrentInput) : Except String NormalizedLessonV1 :=
  match cur.video_url.orElse (fun _ => cur.archiveHls) with
  | some u => .ok ⟨cur.title, u, normRefs (cur.references.getD []), none⟩
  | none => .error "Could not find an HLS URL in lesson response"

/-- The current-shape branch of parseLessonV1 after validation: pick the
first nonempty multi-part source among contents, units, items; if it
yields at least one part with a resolvable URL the lesson is multi-part
with the first part's url and references at top level, otherwise fall
back to video_url or archive.url.hls. -/
def lessonFromCurrent (cur : LessonCurrentInput) : Except String NormalizedLessonV1 :=
  match partsSourceOf cur with
  | some ps =>
    match mkParts (cur.references.getD []) ps with
    | first :: restParts =>
      .ok (NormalizedLessonV1.mk cur.title first.videoUrl first.references
        (some (first :: restParts)))
    | [] => fallbackLesson cur
  | none => fallbackLesson cur

/-- parseLessonV1 of nnnSchemas.ts: legacy shape first, then current. -/
def parseLessonV1 (isUrl : String → Bool) :
    LessonV1Input → Except String NormalizedLessonV1
  | .inl leg =>
    if lessonLegacyOk isUrl leg then
      .ok ⟨leg.title, leg.video_url, normRefs (leg.references.getD []), none⟩
    else .error "SchemaError: lesson"
  | .inr cur =>
    if lessonCurrentOk isUrl cur then lessonFromCurrent cur
    else .error "SchemaError: lesson"

/-- One enqueued work item of resolveCourseLessons (nnnClient.ts line
230): the chapter and lesson ids with their optional titles and the
section kind. -/
structure QueueItem where
  chapterId : Int
  chapterTitle : Option String := none
  lessonId : Int
  lessonTitle : Option String := none
  kind : LessonKind := .lesson
deriving Repr, DecidableEq

/-- Video item of a multi-part lesson (nnnClient.ts). -/
structure VideoItem where
  index : Nat
  title : Option String := none
  videoUrl : String
  referencePageUrls : Option (List String) := none
deriving Repr, DecidableEq

/-- Resolved course lesson (nnnClient.ts CourseLesson).  Option models
JS field absence; a falsy (empty) title is modelled as none, matching
the source's truthiness guards. -/
structure CourseLesson where
  chapterId : Int
  chapterTitle : Option String := none
  lessonId : Int
  lessonTitle : Option String := none
  videoUrl : String
  referencePageUrls : Option (List String) := none
  videoItems : Option (List VideoItem) := none
deriving Repr, DecidableEq

/-- Skipped lesson record of CourseStructure. -/
structure SkippedLesson where
  chapterId : Int
  lessonId : Int
  reason : String
deriving Repr, DecidableEq

/-- Reference URL extraction used throughout resolveCourseLessons:
contentUrl values with nonempty trim. -/
def refUrlsOf (refs : List NormalizedRef) : List String :=
  (refs.map (fun r => r.contentUrl)).filter (fun u => strTrim u != "")

/-- The movie arm of the batch resolver (nnnClient.ts lines 262-274). -/
def movieLesson (item : QueueItem) (movie : NormalizedMovieV2) : CourseLesson :=
  { chapterId := item.chapterId
    lessonId := item.lessonId
    videoUrl := movie.videoUrl
    referencePageUrls :=
      if movie.referencePageUrls ≠ [] then some movie.referencePageUrls else none
    chapterTitle := item.chapterTitle
    lessonTitle := movie.title.orElse (fun _ => item.lessonTitle) }

/-- One entry of the videoItems mapper (nnnClient.ts lines 286-297):
1-based index, per-part reference urls only when nonempty. -/
def partToItem (idx : Nat) (p : NormalizedPart) : VideoItem :=
  { index := idx + 1
    title := p.title
    videoUrl := p.videoUrl
    referencePageUrls :=
      if refUrlsOf p.references ≠ [] then some (refUrlsOf p.references) else none }

/-- The lesson arm of the batch resolver (nnnClient.ts lines 277-321):
when the lesson is multi-part with at least one item of nonempty url,
the item list is attached and the first item's url and references are
mirrored to the top level; otherwise the lesson-level references are
attached when nonempty. -/
def lessonLesson (item : QueueItem) (lesson : NormalizedLessonV1) : CourseLesson :=
  let base : CourseLesson :=
    { chapterId := item.chapterId, lessonId := item.lessonId,
      videoUrl := lesson.videoUrl }
  let withVideo :=
    match lesson.parts with
    | some ps =>
      if ps ≠ [] then
        match (ps.enum.map (fun (pr : Nat × NormalizedPart) => partToItem pr.1 pr.2)).filter
            (fun (x : VideoItem) => x.videoUrl != "") with
        | first :: restItems =>
          { base with
            videoItems := some (first :: restItems)
            videoUrl := first.videoUrl
            referencePageUrls :=
              match first.referencePageUrls with
              | some us => if us ≠ [] then some us else none
              | none => none }
        | [] => base
      else
        { base with
          referencePageUrls :=
            if refUrlsOf lesson.references ≠ [] then some (refUrlsOf lesson.references)
            else none }
    | none =>
      { base with
        referencePageUrls :=
          if refUrlsOf lesson.references ≠ [] then some (refUrlsOf lesson.references)
          else none }
  { withVideo with
    chapterTitle := item.chapterTitle
    lessonTitle := lesson.title.orElse (fun _ => item.lessonTitle) }

/-- The per-item resolver that resolveCourseLessons maps over a batch
(nnnClient.ts lines 260-329): fetch by kind, parse, build the
CourseLesson; any thrown error becomes the Except error, which the
batch loop records as a skip. -/
def resolveItem (isUrl : String → Bool)
    (fetchMovie : QueueItem → Except String MovieV2Input)
    (fetchLesson : QueueItem → Except String LessonV1Input)
    (item : QueueItem) : Except String CourseLesson :=
  match item.kind with
  | .movie =>
    match fetchMovie item with
    | .error e => .error e
    | .ok raw =>
      match parseMovieV2 isUrl raw with
      | .error e => .error e
      | .ok movie => .ok (movieLesson item movie)
  | .lesson =>
    match fetchLesson item with
    | .error e => .error e
    | .ok raw =>
      match parseLessonV1 isUrl raw with
      | .error e => .error e
      | .ok lesson => .ok (lessonLesson item lesson)

/-- One batch of resolveCourseLessons: every item is resolved; successes
keep their batch order, failures are recorded as skips with the error
message as reason (the model resolves the batch sequentially, which is
the deterministic reading of the source's Promise.all join). -/
def resolveBatch (resolver : QueueItem → Except String CourseLesson) :
    List QueueItem → List CourseLesson × List SkippedLesson
  | [] => ([], [])
  | it :: rest =>
    let r := resolveBatch resolver rest
    match resolver it with
    | .ok l => (l :: r.1, r.2)
    | .error e => (r.1, ⟨it.chapterId, it.lessonId, e⟩ :: r.2)

/-- The batch loop of resolveCourseLessons (lines 256-333): slices of
size mc, batch results appended in order.  The head-plus-take shape
equals take mc / drop mc for every mc ≥ 1, which the clamp below
guarantees. -/
def resolveChunks (resolver : QueueItem → Except String CourseLesson) (mc : Nat) :
    List QueueItem → List CourseLesson × List SkippedLesson
  | [] => ([], [])
  | q :: qs =>
    let br := resolveBatch resolver (q :: qs.take (mc - 1))
    let rr := resolveChunks resolver mc (qs.drop (mc - 1))
    (br.1 ++ rr.1, br.2 ++ rr.2)
termination_by l => l.length
decreasing_by
  simp only [List.length_drop, List.length_cons]
  omega

/-- The resolution phase of resolveCourseLessons over an already-built
queue: maxConcurrency (an integer; the source floors it first) is
clamped to at least 1, then the queue is processed in batches. -/
def resolveCourseLessons (resolver : QueueItem → Except String CourseLesson)
    (queue : List QueueItem) (maxConcurrency : Int) :
    List CourseLesson × List SkippedLesson :=
  resolveChunks resolver (max 1 maxConcurrency).toNat queue

/-- Queue item number n of the concrete five-lesson scenario. -/
def qItem (n : Int) : QueueItem :=
  { chapterId := 1, lessonId := n }

/-- Five-lesson queue in enqueue order. -/
def cexQueue : List QueueItem :=
  [qItem 1, qItem 2, qItem 3, qItem 4, qItem 5]

/-- Resolver for the concrete scenario: item 3 fails, the others
resolve. -/
def cexResolver : QueueItem → Except String CourseLesson := fun it =>
  if it.lessonId = 3 then .error "boom"
  else .ok { chapterId := it.chapterId, lessonId := it.lessonId,
             videoUrl := "https://vod.example/v.m3u8" }

/-- Fetch environment for the claim C4 witness: lesson 3's fetch throws,
the others return a legacy-shaped payload. -/
def cexFetchLesson : QueueItem → Except String LessonV1Input := fun it =>
  if it.lessonId = 3 then .error "fetch failed"
  else .ok (.inl { video_url := "https://vod.example/v.m3u8" })

/-- Movie fetcher for the claim C4 witness (never reached: the queue
holds only lesson items). -/
def cexFetchMovie : QueueItem → Except String MovieV2Input := fun _ =>
  .error "unused"

end Zenbukko.Resolve

namespace Zenbukko.Orchestrate

/-- Filesystem abstraction for the media files: a path maps to the size
of the regular file there, none when absent.  Directory layout plays no
role in the skip decision. -/
def Fs : Type := String → Option Nat

/-- The pre-download stat check of downloadCommand (lines 289-292): the
target exists as a file of nonzero size (stat failure is false). -/
def mediaExists (fs : Fs) (p : String) : Bool :=
  match fs p with
  | some n => decide (0 < n)
  | none => false

/-- Filesystem after a download wrote n bytes at p. -/
def fsSet (fs : Fs) (p : String) (n : Nat) : Fs :=
  fun q => if q = p then some n else fs q

/-- The per-item download loop of downloadCommand (lines 277-306),
restricted to the media-download decision: each item's target path is
stat'd; an existing nonzero file skips the download entirely (no playlist
or segment fetch happens for that item), otherwise downloadHlsToFile runs
(download p gives the size written; none models a thrown download error,
which aborts the whole command).  Returns the final filesystem and the
paths actually downloaded, in order. -/
def runDownloads (download : String → Option Nat) :
    Fs → List String → Except String (Fs × List String)
  | fs, [] => .ok (fs, [])
  | fs, p :: ps =>
    if mediaExists fs p then runDownloads download fs ps
    else
      match download p with
      | none => .error p
      | some n =>
        match runDownloads download (fsSet fs p n) ps with
        | .ok (fs1, ds) => .ok (fs1, p :: ds)
        | .error e => .error e

/-- Download environment of the witness: every download writes 1024
bytes. -/
def cexDownloadEnv : String → Option Nat := fun _ => some 1024

/-- Two lesson-item target paths of the witness scenario. -/
def cexPaths : List String :=
  ["course-1/01/01/lesson-1.ts", "course-1/01/02/lesson-2.ts"]

/-- The empty filesystem. -/
def emptyFs : Fs := fun _ => none

end Zenbukko.Orchestrate

namespace Zenbukko.Migrate

/-- Filesystem tree node: a regular file with its content, or a
directory with its named entry list in readdir order. -/
inductive FsNode where
  | file (content : String)
  | dir (entries : List (String × FsNode))
deriving Repr

/-- Entry lookup in a directory listing (first match). -/
def lookupFs : List (String × FsNode) → String → Option FsNode
  | [], _ => none
  | (k, v) :: es, n => if k = n then some v else lookupFs es n

/-- Replace the entry named n, or append it when absent (the effect of
creating or replacing a child in a directory). -/
def setFs : List (String × FsNode) → String → FsNode → List (String × FsNode)
  | [], n, v => [(n, v)]
  | (k, w) :: es, n, v => if k = n then (n, v) :: es else (k, w) :: setFs es n v

/-- Remove the entry named n. -/
def removeFs : List (String × FsNode) → String → List (String × FsNode)
  | [], _ => []
  | (k, w) :: es, n => if k = n then es else (k, w) :: removeFs es n

/-- Node at a relative path below a node. -/
def getFsPath : FsNode → List String → Option FsNode
  | node, [] => some node
  | .file _, _ :: _ => none
  | .dir es, n :: rest =>
    match lookupFs es n with
    | none => none
    | some child => getFsPath child rest

/-- Outcome of one moveDirContentsBestEffort call: moved with the
fullyMoved flag of the source, or failed, modelling a thrown error
(mkdir over an existing file) that aborts the whole walk. -/
inductive MoveStatus where
  | moved (fully : Bool)
  | failed
deriving Repr, DecidableEq

/-- fullyMoved combination: this entry's contribution is anded in unless
the walk already failed. -/
def andStatus : MoveStatus → Bool → MoveStatus
  | .moved f, b => .moved (f && b)
  | .failed, _ => .failed

/-- moveDirContentsBestEffort of src/commands/download.ts (lines 36-88)
over entry lists: first component are the entries left in the source
directory, second the destination entries, third the status.  Per the
source: a file whose destination name exists (as anything) is left
behind with fullyMoved set to false; a file or directory whose
destination name is absent is renamed across; a directory whose
destination is a directory is merged recursively, then the source
directory is removed when the merge emptied it (rmdir fails otherwise);
a directory whose destination is a file makes the fallback recursive
merge call throw in its mkdir, aborting everything that follows. -/
def moveInto : List (String × FsNode) → List (String × FsNode) →
    List (String × FsNode) × List (String × FsNode) × MoveStatus
  | [], dst => ([], dst, .moved true)
  | (name, node) :: rest, dst =>
    match node with
    | .file c =>
      match lookupFs dst name with
      | some _ =>
        let r := moveInto rest dst
        ((name, .file c) :: r.1, r.2.1, andStatus r.2.2 false)
      | none =>
        moveInto rest (setFs dst name (.file c))
    | .dir children =>
      match lookupFs dst name with
      | none => moveInto rest (setFs dst name (.dir children))
      | some (.file _) => ((name, .dir children) :: rest, dst, .failed)
      | some (.dir d) =>
        let c := moveInto children d
        let dst1 := setFs dst name (.dir c.2.1)
        match c.2.2 with
        | .failed => ((name, .dir c.1) :: rest, dst1, .failed)
        | .moved cfull =>
          if cfull && c.1.isEmpty then
            moveInto rest dst1
          else
            let r := moveInto rest dst1
            ((name, .dir c.1) :: r.1, r.2.1, andStatus r.2.2 false)

/-- Outcome of migrateLegacyChapterDir. -/
inductive MigrateOutcome where
  | noLegacy
  | renamed
  | merged (fully : Bool)
  | failed
deriving Repr, DecidableEq

/-- migrateLegacyChapterDir of src/commands/download.ts (lines 90-124)
over the course directory's entry list.  When the legacy folder is
missing (or not a directory) nothing happens; when the numeric name is
absent the rename succeeds; when it names a file, the rename fails and
the fallback merge throws in its mkdir; when it names a directory, the
contents are merged best-effort and the legacy folder is removed only
when fully emptied. -/
def migrateLegacyChapterDir (courseDir : List (String × FsNode))
    (legacyName numericName : String) :
    List (String × FsNode) × MigrateOutcome :=
  match lookupFs courseDir legacyName with
  | some (.dir legacyChildren) =>
    match lookupFs courseDir numericName with
    | none =>
      (setFs (removeFs courseDir legacyName) numericName (.dir legacyChildren),
        .renamed)
    | some (.file _) => (courseDir, .failed)
    | some (.dir numericChildren) =>
      let r := moveInto legacyChildren numericChildren
      let courseDir1 := setFs courseDir numericName (.dir r.2.1)
      match r.2.2 with
      | .failed => (setFs courseDir1 legacyName (.dir r.1), .failed)
      | .moved fully =>
        if fully && r.1.isEmpty then
          (removeFs courseDir1 legacyName, .merged true)
        else
          (setFs courseDir1 legacyName (.dir r.1), .merged false)
  | _ => (courseDir, .noLegacy)

/-- Concrete course directory of the witness: one legacy chapter folder
holding one file, and no numeric destination. -/
def cexCourseDir : List (String × FsNode) :=
  [("chapter-3", .dir [("lesson-9.ts", .file "media-bytes")])]

end Zenbukko.Migrate

-- ===================== END OF DEFINITIONS =====================

namespace Zenbukko.Http

theorem fetchGo_const_netFail {T : Type} (pred : Nat → Bool) (retries : Nat) (msg : String) :
    ∀ (s : Nat) (attempt : Nat) (lastError : Option FetchError), attempt + s = retries →
      fetchGo (T := T) (fun _ => .netFail msg) pred retries attempt lastError (s + 1)
        = (.error (.networkError msg), s + 1) := by
  intro s
  induction s with
  | zero =>
    intro attempt lastError h
    simp only [Nat.add_zero] at h
    simp [fetchGo, h]
  | succ n ih =>
    intro attempt lastError h
    have hne : (attempt == retries) = false := by
      simp only [beq_eq_false_iff_ne, ne_eq]
      omega
    conv_lhs => rw [fetchGo]
    simp only [hne, Bool.false_eq_true, if_false]
    rw [ih (attempt + 1) (some (.networkError msg)) (by omega)]

theorem fetchGo_const_parseFail {T : Type} (pred : Nat → Bool) (retries : Nat)
    (status : Nat) (bodyText msg : String) (hok : respOk status = true) :
    ∀ (s : Nat) (attempt : Nat) (lastError : Option FetchError), attempt + s = retries →
      fetchGo (T := T) (fun _ => .http status bodyText (.error msg)) pred retries attempt
          lastError (s + 1)
        = (.error (.networkError msg), s + 1) := by
  intro s
  induction s with
  | zero =>
    intro attempt lastError h
    simp only [Nat.add_zero] at h
    simp [fetchGo, h, hok]
  | succ n ih =>
    intro attempt lastError h
    have hne : (attempt == retries) = false := by
      simp only [beq_eq_false_iff_ne, ne_eq]
      omega
    conv_lhs => rw [fetchGo]
    simp only [hok, if_true, hne, Bool.false_eq_true, if_false]
    rw [ih (attempt + 1) (some (.networkError msg)) (by omega)]

theorem fetchGo_const_retryableStatus {T : Type} (pred : Nat → Bool) (retries : Nat)
    (status : Nat) (bodyText : String) (js : Except String T)
    (hok : respOk status = false) (hpred : pred status = true) :
    ∀ (s : Nat) (attempt : Nat) (lastError : Option FetchError), attempt + s = retries →
      fetchGo (T := T) (fun _ => .http status bodyText js) pred retries attempt
          lastError (s + 1)
        = (.error (.httpError status (bodyText.take 500)), s + 1) := by
  intro s
  induction s with
  | zero =>
    intro attempt lastError h
    simp only [Nat.add_zero] at h
    simp [fetchGo, h, hok, hpred]
  | succ n ih =>
    intro attempt lastError h
    have hne : (attempt == retries) = false := by
      simp only [beq_eq_false_iff_ne, ne_eq]
      omega
    conv_lhs => rw [fetchGo]
    simp only [hok, Bool.false_eq_true, if_false, hpred, hne, Bool.not_true,
      Bool.false_or, Bool.or_self]
    rw [ih (attempt + 1) (some (.httpError status (bodyText.take 500))) (by omega)]

/-- Claim C3: a failed fetchJson attempt is retried only when attempt < retries
and the failure was a network error or the retry predicate accepts the status;
a non-retryable HTTP status returns the HttpError immediately with no further
attempt; and with retries = 3 against a server answering 503, 503, then 200,
the call succeeds after exactly 2 delayed retries (3 requests) and never makes
a 4th attempt. -/
theorem fetchJson_retry_policy (T : Type) :
    (∀ (responses : Nat → SimResponse T) (pred : Nat → Bool) (status : Nat)
        (bodyText : String) (js : Except String T) (retries : Nat),
        responses 0 = .http status bodyText js → respOk status = false →
        pred status = false →
        fetchJsonWithRetry responses retries pred
          = (.error (.httpError status (bodyText.take 500)), 1))
    ∧ (∀ (msg : String) (pred : Nat → Bool) (retries : Nat),
        fetchJsonWithRetry (T := T) (fun _ => .netFail msg) retries pred
          = (.error (.networkError msg), retries + 1))
    ∧ (∀ (bodyText : String) (js : Except String T) (pred : Nat → Bool) (retries : Nat),
        pred 503 = true →
        fetchJsonWithRetry (fun _ => .http 503 bodyText js) retries pred
          = (.error (.httpError 503 (bodyText.take 500)), retries + 1))
    ∧ (∀ (v : T) (bodyText : String) (pred : Nat → Bool), pred 503 = true →
        fetchJsonWithRetry
            (fun attempt => if attempt < 2 then .http 503 bodyText (.error "parse")
              else .http 200 bodyText (.ok v)) 3 pred
          = (.ok v, 3)) := by
  refine ⟨?_, ?_, ?_, ?_⟩
  · intro responses pred status bodyText js retries h0 hok hpred
    unfold fetchJsonWithRetry
    conv_lhs => rw [fetchGo]
    simp [h0, hok, hpred]
  · intro msg pred retries
    exact fetchGo_const_netFail pred retries msg retries 0 none (by omega)
  · intro bodyText js pred retries hpred
    exact fetchGo_const_retryableStatus pred retries 503 bodyText js (by decide)
      hpred retries 0 none (by omega)
  · intro v bodyText pred hpred
    simp [fetchJsonWithRetry, fetchGo, respOk, hpred]

/-- Witness for fetchJson_retry_policy: the 503, 503, 200 scenario at a
concrete type, server and predicate. -/
theorem fetchJson_retry_policy_witness :
    fetchJsonWithRetry (T := Nat)
        (fun attempt => if attempt < 2 then .http 503 "overloaded" (.error "parse")
          else .http 200 "overloaded" (.ok 7)) 3 (fun s => decide (500 ≤ s))
      = (.ok 7, 3) :=
  (fetchJson_retry_policy Nat).2.2.2 7 "overloaded" (fun s => decide (500 ≤ s))
    (by decide)

/-- Claim C10: a 2xx response whose body fails to parse as JSON is neither a
success nor a thrown exception: it becomes a NetworkError result and is
retried like a transport failure while attempt < retries (the model's result
type has no thrown outcome because the source catches the parse throw). -/
theorem fetchJson_parse_failure_is_network_error (T : Type) :
    (∀ (status : Nat) (bodyText msg : String) (pred : Nat → Bool) (retries : Nat),
        respOk status = true →
        fetchJsonWithRetry (T := T) (fun _ => .http status bodyText (.error msg))
            retries pred
          = (.error (.networkError msg), retries + 1))
    ∧ (∀ (status : Nat) (bodyText msg : String) (v : T) (pred : Nat → Bool)
        (retries : Nat),
        respOk status = true → 0 < retries →
        fetchJsonWithRetry
            (fun attempt => if attempt == 0 then .http status bodyText (.error msg)
              else .http status bodyText (.ok v)) retries pred
          = (.ok v, 2)) := by
  constructor
  · intro status bodyText msg pred retries hok
    exact fetchGo_const_parseFail pred retries status bodyText msg hok retries 0 none
      (by omega)
  · intro status bodyText msg v pred retries hok hpos
    obtain ⟨r, rfl⟩ : ∃ r, retries = r + 1 := ⟨retries - 1, by omega⟩
    unfold fetchJsonWithRetry
    conv_lhs => rw [fetchGo]
    have h0 : (0 == r + 1) = false := by
      simp only [beq_eq_false_iff_ne, ne_eq]
      omega
    simp only [beq_self_eq_true, if_true, hok, h0, Bool.false_eq_true, if_false]
    conv_lhs => rw [fetchGo]
    simp [hok]

/-- Witness for fetchJson_parse_failure_is_network_error: a server that keeps
answering 200 with an unparsable body exhausts the retry budget. -/
theorem fetchJson_parse_failure_witness :
    fetchJsonWithRetry (T := Nat) (fun _ => .http 200 "not json" (.error "bad json"))
        3 (fun s => decide (500 ≤ s))
      = (.error (.networkError "bad json"), 4) :=
  (fetchJson_parse_failure_is_network_error Nat).1 200 "not json" "bad json"
    (fun s => decide (500 ≤ s)) 3 (by decide)

end Zenbukko.Http

namespace Zenbukko.Hls

theorem finishMedia_playlistFetches (fetches : List Url) (media : ParsedPlaylist) :
    (finishMedia fetches media).playlistFetches = fetches := by
  unfold finishMedia
  split <;> rfl

/-- Claim C1 (failing evaluation): a key marker appearing only in the media
playlist selected from a master playlist is not detected.  The media playlist
served for the selected variant parses as encrypted, yet the download run
ends with outcome ok and fetches the segment instead of aborting with the
unsupported-content error before any segment fetch. -/
theorem hls_encrypted_media_playlist_not_detected :
    (parseM3u8 (fun s _ => s) cexEncryptedMediaText "media.m3u8").isEncrypted = true
    ∧ downloadHlsToFile cexFetchEnv (fun s _ => s) "master.m3u8"
        = ⟨["master.m3u8", "media.m3u8"], ["seg1.ts"], .ok⟩ := by
  exact ⟨by decide, by decide⟩

/-- Claim C7: when the fetched playlist declares at least one variant stream
and is not encrypted, the media playlist fetched next is the last declared
variant (already resolved against the master playlist's own URL inside
parseM3u8). -/
theorem hls_selects_last_variant (fetchText : Url → Option String)
    (resolve : String → Url → Url) (m3u8Url : Url) (playlist : String)
    (vs : List Url) (v : Url)
    (h1 : fetchText m3u8Url = some playlist)
    (h2 : (parseM3u8 resolve playlist m3u8Url).isEncrypted = false)
    (h3 : (parseM3u8 resolve playlist m3u8Url).variantUrls = vs ++ [v]) :
    (downloadHlsToFile fetchText resolve m3u8Url).playlistFetches = [m3u8Url, v] := by
  unfold downloadHlsToFile
  simp only [h1, h2, Bool.false_eq_true, if_false, h3, List.getLast?_concat]
  cases hf : fetchText v with
  | none => rfl
  | some mediaText => rw [finishMedia_playlistFetches]

/-- Witness for hls_selects_last_variant: a playlist listing 3 variant URLs;
the 3rd (last) one is the media playlist fetched. -/
theorem hls_selects_last_variant_witness :
    (downloadHlsToFile threeVariantFetchEnv (fun s _ => s)
        "master.m3u8").playlistFetches = ["master.m3u8", "v3.m3u8"] :=
  hls_selects_last_variant threeVariantFetchEnv (fun s _ => s) "master.m3u8"
    threeVariantMasterText ["v1.m3u8", "v2.m3u8"] "v3.m3u8" (by decide) (by decide)
    (by decide)

end Zenbukko.Hls

namespace Zenbukko.Session

open Zenbukko.Str

/-- Claim C5 counterexample: a cookie whose domain nnn.ed.nico carries no
leading dot is nevertheless included for host api.nnn.ed.nico by suffix
matching, while the condition the claim states (suffix match only for a
leading-dot domain) rejects it — the claimed if-and-only-if is false at
this concrete input. -/
theorem buildCookieHeader_claim_counterexample :
    cookieIncluded cexCookie "api.nnn.ed.nico" "/" 0 = true
    ∧ claimCookieIncluded cexCookie "api.nnn.ed.nico" "/" 0 = false
    ∧ buildCookieHeader cexSession "api.nnn.ed.nico" "/" 0 = "a=b" :=
  ⟨by decide, by decide, by decide⟩

theorem pathMatches_of_rooted (cookiePath requestPath : String)
    (hpath : strStarts requestPath "/" = true) :
    pathMatches cookiePath requestPath
      = (strStarts cookiePath "/" && strStarts requestPath cookiePath) := by
  unfold pathMatches
  rw [hpath]
  by_cases hp : strStarts cookiePath "/" = true
  · rw [hp]
    by_cases hq : cookiePath = "/"
    · subst hq
      simp [hpath]
    · have : (cookiePath == "/") = false := by
        simp [hq]
      simp [this]
  · have hp' : strStarts cookiePath "/" = false := by
      revert hp
      cases strStarts cookiePath "/" <;> simp
    simp [hp']

/-- Claim C5 (amended): for a session with no usable legacy raw header and a
rooted target path, buildCookieHeader renders exactly the cookies passing the
filter, and the filter includes a cookie if and only if: its domain (with any
leading dot stripped) equals the target host or the host ends with dot plus
that domain; its path (defaulting to "/") starts with "/" and is a string
prefix of the target path; and its expiry is absent, -1, or strictly in the
future. -/
theorem buildCookieHeader_filter_amended (session : StoredSession)
    (host pathname : String) (nowSec : Int)
    (hleg : ∀ h, session.cookieHeader = some h → strTrim h = "")
    (hpath : strStarts pathname "/" = true) :
    buildCookieHeader session host pathname nowSec
      = joinPairs (dedupeKeepLast (filteredPairs session host pathname nowSec))
    ∧ ∀ c, cookieIncluded c host pathname nowSec
        = amendedCookieIncluded c host pathname nowSec := by
  have hne : pathname ≠ "" := by
    intro h
    subst h
    simp [strStarts, headMatches] at hpath
  constructor
  · unfold buildCookieHeader buildFromCookies
    cases hch : session.cookieHeader with
    | none => simp [hne]
    | some h =>
      have hh := hleg h hch
      simp [hh, hne]
  · intro c
    simp only [cookieIncluded, amendedCookieIncluded, domainMatches,
      pathMatches_of_rooted _ _ hpath]

/-- Witness for buildCookieHeader_filter_amended at a concrete session,
host, path and time. -/
theorem buildCookieHeader_filter_amended_witness :
    buildCookieHeader cexSession "api.nnn.ed.nico" "/course" 0
      = joinPairs (dedupeKeepLast (filteredPairs cexSession "api.nnn.ed.nico" "/course" 0))
    ∧ ∀ c, cookieIncluded c "api.nnn.ed.nico" "/course" 0
        = amendedCookieIncluded c "api.nnn.ed.nico" "/course" 0 :=
  buildCookieHeader_filter_amended cexSession "api.nnn.ed.nico" "/course" 0
    (fun h hh => Option.noConfusion hh) (by decide)

end Zenbukko.Session

namespace Zenbukko.Schemas

/-- Claim C6 counterexample: a legacy section whose section_type is "movie"
is normalised to kind other, not movie, so the claimed mapping fails for the
legacy shape at this concrete payload. -/
theorem chapter_kind_claim_counterexample :
    (parseChapterDetails (fun _ => 0) (.inl cexLegacyChapter)).sections.map
        (fun s => s.kind) = [.other]
    ∧ SectionKind.other ≠ SectionKind.movie :=
  ⟨by decide, by decide⟩

/-- Claim C6 (amended): the section discriminator maps onto the kinds as
follows — in the legacy shape section_type "lesson" maps to lesson and any
other value (including "movie") maps to other; in the current shape
resource_type "lesson" maps to lesson, "movie" to movie and anything else to
other. -/
theorem chapter_kind_mapping_amended :
    (∀ (jsNumber : String → Int) (leg : LegacyChapterDetails),
      (parseChapterDetails jsNumber (.inl leg)).sections.map (fun s => s.kind)
        = leg.sections.map (fun s => claimLegacyKind s.section_type))
    ∧ (∀ (jsNumber : String → Int) (cur : CurrentChapterDetails),
      (parseChapterDetails jsNumber (.inr cur)).sections.map (fun s => s.kind)
        = cur.sections.map (fun s => claimCurrentKind s.resource_type)) := by
  constructor
  · intro jsNumber leg
    simp [parseChapterDetails, claimLegacyKind]
  · intro jsNumber cur
    simp [parseChapterDetails, claimCurrentKind]

/-- Witness for chapter_kind_mapping_amended at concrete payloads of both
shapes. -/
theorem chapter_kind_mapping_amended_witness :
    (parseChapterDetails (fun _ => 0) (.inl cexLegacyChapter)).sections.map
        (fun s => s.kind)
      = cexLegacyChapter.sections.map (fun s => claimLegacyKind s.section_type)
    ∧ (parseChapterDetails (fun _ => 0)
          (.inr { sections := [{ id := 3, resource_type := some "movie" }] })).sections.map
        (fun s => s.kind)
      = [({ id := 3, resource_type := some "movie" } : CurrentSection)].map
          (fun s => claimCurrentKind s.resource_type) :=
  ⟨chapter_kind_mapping_amended.1 (fun _ => 0) cexLegacyChapter,
   chapter_kind_mapping_amended.2 (fun _ => 0)
     { sections := [{ id := 3, resource_type := some "movie" }] }⟩

end Zenbukko.Schemas

namespace Zenbukko.Resolve

/-- Success projection of the batch resolver, as an Option. -/
theorem resolveBatch_eq (resolver : QueueItem → Except String CourseLesson)
    (batch : List QueueItem) :
    resolveBatch resolver batch
      = (batch.filterMap (fun it => (resolver it).toOption),
         batch.filterMap (fun it =>
           match resolver it with
           | .error e => some ⟨it.chapterId, it.lessonId, e⟩
           | .ok _ => none)) := by
  induction batch with
  | nil => rfl
  | cons it rest ih =>
    simp only [resolveBatch, ih, List.filterMap_cons]
    cases h : resolver it <;> simp [Except.toOption, h]

theorem resolveChunks_eq (resolver : QueueItem → Except String CourseLesson)
    (mc : Nat) (queue : List QueueItem) :
    resolveChunks resolver mc queue
      = (queue.filterMap (fun it => (resolver it).toOption),
         queue.filterMap (fun it =>
           match resolver it with
           | .error e => some ⟨it.chapterId, it.lessonId, e⟩
           | .ok _ => none)) := by
  have H : ∀ (n : Nat) (q : List QueueItem), q.length ≤ n →
      resolveChunks resolver mc q
        = (q.filterMap (fun it => (resolver it).toOption),
           q.filterMap (fun it =>
             match resolver it with
             | .error e => some ⟨it.chapterId, it.lessonId, e⟩
             | .ok _ => none)) := by
    intro n
    induction n with
    | zero =>
      intro q hq
      have : q = [] := List.length_eq_zero.mp (Nat.le_zero.mp hq)
      subst this
      rw [resolveChunks]
      simp
    | succ n ih =>
      intro q hq
      match q with
      | [] =>
        rw [resolveChunks]
        simp
      | it :: qs =>
        simp only [List.length_cons] at hq
        rw [resolveChunks, resolveBatch_eq,
          ih (qs.drop (mc - 1)) (by simp only [List.length_drop]; omega)]
        rw [← List.filterMap_append, ← List.filterMap_append]
        simp only [List.cons_append, List.take_append_drop]
  exact H queue.length queue le_rfl

/-- Claim C2: for every resolution queue and every maxConcurrency (clamped to
at least 1), the successfully resolved lessons appear in the lessons output
in exactly enqueue order and every failed item is recorded as a skip with the
error message as reason, without affecting the other items; in particular, a
5-lesson queue with maxConcurrency 2 where only item 3 fails yields the other
4 lessons in original order and exactly one skip entry for item 3. -/
theorem resolve_preserves_order_and_skips :
    (∀ (resolver : QueueItem → Except String CourseLesson)
        (queue : List QueueItem) (maxConcurrency : Int),
      (resolveCourseLessons resolver queue maxConcurrency).1
          = queue.filterMap (fun it => (resolver it).toOption)
        ∧ (resolveCourseLessons resolver queue maxConcurrency).2
          = queue.filterMap (fun it =>
              match resolver it with
              | .error e => some ⟨it.chapterId, it.lessonId, e⟩
              | .ok _ => none))
    ∧ resolveCourseLessons cexResolver cexQueue 2
        = ([{ chapterId := 1, lessonId := 1, videoUrl := "https://vod.example/v.m3u8" },
            { chapterId := 1, lessonId := 2, videoUrl := "https://vod.example/v.m3u8" },
            { chapterId := 1, lessonId := 4, videoUrl := "https://vod.example/v.m3u8" },
            { chapterId := 1, lessonId := 5, videoUrl := "https://vod.example/v.m3u8" }],
           [⟨1, 3, "boom"⟩]) := by
  constructor
  · intro resolver queue maxConcurrency
    rw [resolveCourseLessons, resolveChunks_eq]
    exact ⟨rfl, rfl⟩
  · rw [resolveCourseLessons, resolveChunks_eq]
    decide

/-- Witness for resolve_preserves_order_and_skips at the concrete
five-lesson queue. -/
theorem resolve_preserves_order_and_skips_witness :
    (resolveCourseLessons cexResolver cexQueue 2).1
        = cexQueue.filterMap (fun it => (cexResolver it).toOption)
      ∧ (resolveCourseLessons cexResolver cexQueue 2).2
        = cexQueue.filterMap (fun it =>
            match cexResolver it with
            | .error e => some ⟨it.chapterId, it.lessonId, e⟩
            | .ok _ => none) :=
  resolve_preserves_order_and_skips.1 cexResolver cexQueue 2

end Zenbukko.Resolve

namespace Zenbukko.Resolve

theorem orElse_url_ok (isUrl : String → Bool) (a b : Option String) (u : String)
    (ha : optUrlOk isUrl a = true) (hb : optUrlOk isUrl b = true)
    (h : a.orElse (fun _ => b) = some u) : isUrl u = true := by
  cases a with
  | some x =>
    simp only [Option.orElse, Option.some.injEq] at h
    subst h
    exact ha
  | none =>
    simp only [Option.orElse] at h
    subst h
    exact hb

theorem parseMovieV2_ok_url (isUrl : String → Bool) (m : MovieV2Input)
    (mv : NormalizedMovieV2) (h : parseMovieV2 isUrl m = .ok mv) :
    isUrl mv.videoUrl = true := by
  unfold parseMovieV2 at h
  by_cases hok : movieOk isUrl m = true
  · rw [if_pos hok] at h
    cases hv : (m.videos.getD []).head? with
    | none => rw [hv] at h; simp at h
    | some v =>
      rw [hv] at h
      dsimp only at h
      cases hu : v.hlsUrl with
      | none => rw [hu] at h; simp at h
      | some u =>
        rw [hu] at h
        rw [Except.ok.injEq] at h
        subst h
        have hmem : v ∈ m.videos.getD [] := List.mem_of_mem_head? hv
        have hok' := hok
        simp only [movieOk, Bool.and_eq_true] at hok'
        have hall := hok'.1
        rw [List.all_eq_true] at hall
        have := hall v hmem
        rw [hu] at this
        exact this
  · rw [if_neg hok] at h
    simp at h

theorem partsSourceOf_validated (isUrl : String → Bool) (cur : LessonCurrentInput)
    (ps : List PartInput) (hok : lessonCurrentOk isUrl cur = true)
    (hps : partsSourceOf cur = some ps) :
    ∀ p ∈ ps, partOk isUrl p = true := by
  simp only [lessonCurrentOk, Bool.and_eq_true] at hok
  obtain ⟨⟨⟨⟨⟨_, _⟩, _⟩, hc⟩, hun⟩, hit⟩ := hok
  rw [List.all_eq_true] at hc hun hit
  unfold partsSourceOf at hps
  split at hps
  · cases hps; exact hc
  · split at hps
    · cases hps; exact hun
    · split at hps
      · cases hps; exact hit
      · cases hps

theorem mkParts_head_url (isUrl : String → Bool) (raw : List RefInput)
    (ps : List PartInput) (hall : ∀ p ∈ ps, partOk isUrl p = true)
    (np : NormalizedPart) (hmem : np ∈ mkParts raw ps) :
    isUrl np.videoUrl = true := by
  unfold mkParts at hmem
  rw [List.mem_filterMap] at hmem
  obtain ⟨p, hp, hf⟩ := hmem
  cases hor : p.video_url.orElse (fun _ => p.archiveHls) with
  | none => rw [hor] at hf; cases hf
  | some u =>
    rw [hor] at hf
    rw [Option.some.injEq] at hf
    subst hf
    have hpo := hall p hp
    simp only [partOk, Bool.and_eq_true] at hpo
    exact orElse_url_ok isUrl _ _ u hpo.1.1 hpo.1.2 hor

theorem fallbackLesson_ok_url (isUrl : String → Bool) (cur : LessonCurrentInput)
    (l : NormalizedLessonV1) (hok : lessonCurrentOk isUrl cur = true)
    (h : fallbackLesson cur = .ok l) : isUrl l.videoUrl = true := by
  unfold fallbackLesson at h
  cases hor : cur.video_url.orElse (fun _ => cur.archiveHls) with
  | none => rw [hor] at h; simp at h
  | some u =>
    rw [hor] at h
    rw [Except.ok.injEq] at h
    subst h
    simp only [lessonCurrentOk, Bool.and_eq_true] at hok
    exact orElse_url_ok isUrl _ _ u hok.1.1.1.1.1 hok.1.1.1.1.2 hor

theorem parseLessonV1_ok_url (isUrl : String → Bool) (input : LessonV1Input)
    (l : NormalizedLessonV1) (h : parseLessonV1 isUrl input = .ok l) :
    isUrl l.videoUrl = true := by
  cases input with
  | inl leg =>
    unfold parseLessonV1 at h
    dsimp only at h
    by_cases hok : lessonLegacyOk isUrl leg = true
    · rw [if_pos hok] at h
      rw [Except.ok.injEq] at h
      subst h
      have hok' := hok
      simp only [lessonLegacyOk, Bool.and_eq_true] at hok'
      exact hok'.1
    · rw [if_neg hok] at h
      simp at h
  | inr cur =>
    unfold parseLessonV1 at h
    dsimp only at h
    by_cases hok : lessonCurrentOk isUrl cur = true
    · rw [if_pos hok] at h
      unfold lessonFromCurrent at h
      cases hps : partsSourceOf cur with
      | none =>
        rw [hps] at h
        exact fallbackLesson_ok_url isUrl cur l hok h
      | some ps =>
        rw [hps] at h
        dsimp only at h
        cases hmk : mkParts (cur.references.getD []) ps with
        | nil =>
          rw [hmk] at h
          exact fallbackLesson_ok_url isUrl cur l hok h
        | cons first restParts =>
          rw [hmk] at h
          rw [Except.ok.injEq] at h
          subst h
          have hall := partsSourceOf_validated isUrl cur ps hok hps
          exact mkParts_head_url isUrl _ ps hall first
            (hmk ▸ List.mem_cons_self first restParts)
    · rw [if_neg hok] at h
      simp at h

end Zenbukko.Resolve

namespace Zenbukko.Resolve

theorem lessonLesson_videoUrl (isUrl : String → Bool) (item : QueueItem)
    (lesson : NormalizedLessonV1) (hurl : isUrl "" = false)
    (hv : isUrl lesson.videoUrl = true) :
    (lessonLesson item lesson).videoUrl ≠ "" := by
  have hbase : lesson.videoUrl ≠ "" := by
    intro hc
    rw [hc, hurl] at hv
    cases hv
  unfold lessonLesson
  cases hps : lesson.parts with
  | none => exact hbase
  | some ps =>
    by_cases hem : ps = []
    · simp only [hem, ne_eq, not_true_eq_false, if_false]
      exact hbase
    · simp only [hem, ne_eq, not_false_eq_true, if_true]
      cases hflt : (ps.enum.map (fun (pr : Nat × NormalizedPart) => partToItem pr.1 pr.2)).filter
          (fun (x : VideoItem) => x.videoUrl != "") with
      | nil => exact hbase
      | cons first restItems =>
        have hfirst : first ∈ (ps.enum.map
            (fun (pr : Nat × NormalizedPart) => partToItem pr.1 pr.2)).filter
            (fun (x : VideoItem) => x.videoUrl != "") := by
          rw [hflt]
          exact List.mem_cons_self first restItems
        have := List.of_mem_filter hfirst
        simpa using this

theorem lessonLesson_ids (item : QueueItem) (lesson : NormalizedLessonV1) :
    (lessonLesson item lesson).chapterId = item.chapterId
      ∧ (lessonLesson item lesson).lessonId = item.lessonId := by
  unfold lessonLesson
  cases lesson.parts with
  | none => exact ⟨by trivial, by trivial⟩
  | some ps =>
    by_cases hem : ps = []
    · simp only [hem, ne_eq, not_true_eq_false, if_false]
      exact ⟨by trivial, by trivial⟩
    · simp only [hem, ne_eq, not_false_eq_true, if_true]
      cases (ps.enum.map (fun (pr : Nat × NormalizedPart) => partToItem pr.1 pr.2)).filter
          (fun (x : VideoItem) => x.videoUrl != "") with
      | nil => exact ⟨by trivial, by trivial⟩
      | cons first restItems => exact ⟨by trivial, by trivial⟩

theorem resolveItem_ok (isUrl : String → Bool)
    (fetchMovie : QueueItem → Except String MovieV2Input)
    (fetchLesson : QueueItem → Except String LessonV1Input)
    (item : QueueItem) (l : CourseLesson) (hurl : isUrl "" = false)
    (h : resolveItem isUrl fetchMovie fetchLesson item = .ok l) :
    l.videoUrl ≠ "" ∧ l.chapterId = item.chapterId ∧ l.lessonId = item.lessonId := by
  unfold resolveItem at h
  cases hk : item.kind with
  | movie =>
    rw [hk] at h
    cases hf : fetchMovie item with
    | error e => rw [hf] at h; simp at h
    | ok raw =>
      rw [hf] at h
      dsimp only at h
      cases hp : parseMovieV2 isUrl raw with
      | error e => rw [hp] at h; simp at h
      | ok movie =>
        rw [hp] at h
        rw [Except.ok.injEq] at h
        subst h
        refine ⟨?_, rfl, rfl⟩
        have hv := parseMovieV2_ok_url isUrl raw movie hp
        intro hc
        have : (movieLesson item movie).videoUrl = movie.videoUrl := rfl
        rw [this] at hc
        rw [hc, hurl] at hv
        cases hv
  | lesson =>
    rw [hk] at h
    cases hf : fetchLesson item with
    | error e => rw [hf] at h; simp at h
    | ok raw =>
      rw [hf] at h
      dsimp only at h
      cases hp : parseLessonV1 isUrl raw with
      | error e => rw [hp] at h; simp at h
      | ok lesson =>
        rw [hp] at h
        rw [Except.ok.injEq] at h
        subst h
        have hv := parseLessonV1_ok_url isUrl raw lesson hp
        exact ⟨lessonLesson_videoUrl isUrl item lesson hurl hv,
          (lessonLesson_ids item lesson).1, (lessonLesson_ids item lesson).2⟩

/-- Claim C4: every lesson in the resolution output has a nonempty videoUrl,
and every enqueued item either appears among the resolved lessons or appears
in skippedLessons with its chapterId and lessonId — no enqueued item is
absent from both lists.  The single hypothesis is that the abstract zod url
validator rejects the empty string. -/
theorem resolved_lessons_url_and_accounted (isUrl : String → Bool)
    (fetchMovie : QueueItem → Except String MovieV2Input)
    (fetchLesson : QueueItem → Except String LessonV1Input)
    (queue : List QueueItem) (maxConcurrency : Int)
    (hurl : isUrl "" = false) :
    (∀ l ∈ (resolveCourseLessons (resolveItem isUrl fetchMovie fetchLesson) queue
        maxConcurrency).1, l.videoUrl ≠ "")
    ∧ (∀ it ∈ queue,
        (∃ l ∈ (resolveCourseLessons (resolveItem isUrl fetchMovie fetchLesson) queue
            maxConcurrency).1,
          l.chapterId = it.chapterId ∧ l.lessonId = it.lessonId)
        ∨ (∃ s ∈ (resolveCourseLessons (resolveItem isUrl fetchMovie fetchLesson) queue
            maxConcurrency).2,
          s.chapterId = it.chapterId ∧ s.lessonId = it.lessonId)) := by
  rw [resolveCourseLessons, resolveChunks_eq]
  constructor
  · intro l hl
    rw [List.mem_filterMap] at hl
    obtain ⟨it, hit, hres⟩ := hl
    have hok : resolveItem isUrl fetchMovie fetchLesson it = .ok l := by
      cases hr : resolveItem isUrl fetchMovie fetchLesson it <;>
        rw [hr] at hres <;> simp [Except.toOption] at hres
      rw [hres]
    exact (resolveItem_ok isUrl fetchMovie fetchLesson it l hurl hok).1
  · intro it hit
    cases hr : resolveItem isUrl fetchMovie fetchLesson it with
    | ok l =>
      left
      refine ⟨l, ?_, ?_, ?_⟩
      · rw [List.mem_filterMap]
        exact ⟨it, hit, by rw [hr]; rfl⟩
      · exact (resolveItem_ok isUrl fetchMovie fetchLesson it l hurl hr).2.1
      · exact (resolveItem_ok isUrl fetchMovie fetchLesson it l hurl hr).2.2
    | error e =>
      right
      refine ⟨⟨it.chapterId, it.lessonId, e⟩, ?_, rfl, rfl⟩
      rw [List.mem_filterMap]
      exact ⟨it, hit, by rw [hr]⟩

/-- Witness for resolved_lessons_url_and_accounted: the five-lesson queue
against the concrete fetch environment where item 3's fetch fails, with the
url validator that rejects the empty string. -/
theorem resolved_lessons_url_and_accounted_witness :
    (∀ l ∈ (resolveCourseLessons
        (resolveItem (fun s => s != "") cexFetchMovie cexFetchLesson) cexQueue 2).1,
      l.videoUrl ≠ "")
    ∧ (∀ it ∈ cexQueue,
        (∃ l ∈ (resolveCourseLessons
            (resolveItem (fun s => s != "") cexFetchMovie cexFetchLesson) cexQueue 2).1,
          l.chapterId = it.chapterId ∧ l.lessonId = it.lessonId)
        ∨ (∃ s ∈ (resolveCourseLessons
            (resolveItem (fun s => s != "") cexFetchMovie cexFetchLesson) cexQueue 2).2,
          s.chapterId = it.chapterId ∧ s.lessonId = it.lessonId)) :=
  resolved_lessons_url_and_accounted (fun s => s != "") cexFetchMovie cexFetchLesson
    cexQueue 2 (by decide)

end Zenbukko.Resolve

namespace Zenbukko.Orchestrate

theorem runDownloads_mono_and_exists (download : String → Option Nat)
    (hpos : ∀ p n, download p = some n → 0 < n) :
    ∀ (paths : List String) (fs fs1 : Fs) (ds : List String),
      runDownloads download fs paths = .ok (fs1, ds) →
      (∀ q, mediaExists fs q = true → mediaExists fs1 q = true)
      ∧ (∀ p ∈ paths, mediaExists fs1 p = true) := by
  intro paths
  induction paths with
  | nil =>
    intro fs fs1 ds h
    simp only [runDownloads, Except.ok.injEq, Prod.mk.injEq] at h
    obtain ⟨h1, h2⟩ := h
    subst h1
    exact ⟨fun q hq => hq, by simp⟩
  | cons p ps ih =>
    intro fs fs1 ds h
    simp only [runDownloads] at h
    by_cases hme : mediaExists fs p = true
    · rw [if_pos hme] at h
      obtain ⟨hmono, hall⟩ := ih fs fs1 ds h
      refine ⟨hmono, ?_⟩
      intro q hq
      rcases List.mem_cons.mp hq with hq | hq
      · subst hq
        exact hmono q hme
      · exact hall q hq
    · rw [if_neg hme] at h
      cases hd : download p with
      | none => rw [hd] at h; simp at h
      | some n =>
        rw [hd] at h
        dsimp only at h
        cases hr : runDownloads download (fsSet fs p n) ps with
        | error e => rw [hr] at h; simp at h
        | ok r =>
          obtain ⟨fs1', ds'⟩ := r
          rw [hr] at h
          simp only [Except.ok.injEq, Prod.mk.injEq] at h
          obtain ⟨h1, _⟩ := h
          subst h1
          obtain ⟨hmono, hall⟩ := ih (fsSet fs p n) fs1' ds' hr
          have hsetp : mediaExists (fsSet fs p n) p = true := by
            simp [mediaExists, fsSet, hpos p n hd]
          refine ⟨?_, ?_⟩
          · intro q hq
            refine hmono q ?_
            by_cases hqp : q = p
            · subst hqp
              exact hsetp
            · simpa [mediaExists, fsSet, hqp] using hq
          · intro q hq
            rcases List.mem_cons.mp hq with hq | hq
            · subst hq
              exact hmono q hsetp
            · exact hall q hq

theorem runDownloads_all_skip (download : String → Option Nat) :
    ∀ (paths : List String) (fs : Fs), (∀ p ∈ paths, mediaExists fs p = true) →
      runDownloads download fs paths = .ok (fs, []) := by
  intro paths
  induction paths with
  | nil => intro fs _; rfl
  | cons p ps ih =>
    intro fs h
    simp only [runDownloads]
    rw [if_pos (h p (List.mem_cons_self p ps))]
    exact ih fs (fun q hq => h q (List.mem_cons_of_mem p hq))

/-- Claim C8: an item whose target file already exists as a nonzero-size file
is skipped entirely (no download, hence no playlist or segment fetch for that
item), and a second run over the same item paths against the filesystem a
completed run left behind performs zero downloads and leaves the filesystem
unchanged — provided every successful download writes at least one byte. -/
theorem orchestrator_idempotent_skip (download : String → Option Nat)
    (hpos : ∀ p n, download p = some n → 0 < n) :
    (∀ (fs : Fs) (p : String), mediaExists fs p = true →
      runDownloads download fs [p] = .ok (fs, []))
    ∧ (∀ (paths : List String) (fs fs1 : Fs) (ds : List String),
        runDownloads download fs paths = .ok (fs1, ds) →
        runDownloads download fs1 paths = .ok (fs1, [])) := by
  constructor
  · intro fs p h
    refine runDownloads_all_skip download [p] fs ?_
    intro q hq
    rw [List.mem_singleton] at hq
    subst hq
    exact h
  · intro paths fs fs1 ds h
    exact runDownloads_all_skip download paths fs1
      ((runDownloads_mono_and_exists download hpos paths fs fs1 ds h).2)

/-- Witness for orchestrator_idempotent_skip: after a concrete first run over
two lesson paths starting from the empty filesystem, the second run is a full
skip with zero downloads. -/
theorem orchestrator_idempotent_skip_witness :
    runDownloads cexDownloadEnv
        (fsSet (fsSet emptyFs "course-1/01/01/lesson-1.ts" 1024)
          "course-1/01/02/lesson-2.ts" 1024) cexPaths
      = .ok (fsSet (fsSet emptyFs "course-1/01/01/lesson-1.ts" 1024)
          "course-1/01/02/lesson-2.ts" 1024, []) :=
  (orchestrator_idempotent_skip cexDownloadEnv
      (by intro p n h; cases h; decide)).2 cexPaths emptyFs
    (fsSet (fsSet emptyFs "course-1/01/01/lesson-1.ts" 1024)
      "course-1/01/02/lesson-2.ts" 1024) cexPaths rfl

end Zenbukko.Orchestrate

namespace Zenbukko.Migrate

theorem lookup_setFs (es : List (String × FsNode)) (n m : String) (v : FsNode) :
    lookupFs (setFs es n v) m = if n = m then some v else lookupFs es m := by
  induction es with
  | nil => simp [setFs, lookupFs]
  | cons kv es ih =>
    obtain ⟨k, w⟩ := kv
    by_cases hk : k = n
    · subst hk
      by_cases hm : k = m <;> simp [setFs, lookupFs, hm]
    · by_cases hm : k = m
      · subst hm
        have hnm : ¬n = k := fun hh => hk hh.symm
        simp [setFs, lookupFs, hk, hnm]
      · simp [setFs, lookupFs, hk, hm, ih]

theorem lookup_removeFs_ne (es : List (String × FsNode)) (n m : String) (h : ¬n = m) :
    lookupFs (removeFs es n) m = lookupFs es m := by
  induction es with
  | nil => rfl
  | cons kv es ih =>
    obtain ⟨k, w⟩ := kv
    by_cases hk : k = n
    · subst hk
      have hkm : ¬k = m := fun hh => h hh
      simp [removeFs, lookupFs, hkm]
    · by_cases hm : k = m
      · subst hm
        simp [removeFs, lookupFs, hk]
      · simp [removeFs, lookupFs, hk, hm, ih]

theorem lookup_none_of_not_mem_keys (es : List (String × FsNode)) (n : String)
    (h : n ∉ es.map Prod.fst) : lookupFs es n = none := by
  induction es with
  | nil => rfl
  | cons kv es ih =>
    obtain ⟨k, w⟩ := kv
    simp only [List.map_cons, List.mem_cons] at h
    push_neg at h
    have hk : ¬k = n := fun hh => h.1 hh.symm
    simp [lookupFs, hk, ih h.2]

theorem lookup_removeFs_self (es : List (String × FsNode)) (n : String)
    (h : (es.map Prod.fst).Nodup) : lookupFs (removeFs es n) n = none := by
  induction es with
  | nil => rfl
  | cons kv es ih =>
    obtain ⟨k, w⟩ := kv
    simp only [List.map_cons, List.nodup_cons] at h
    by_cases hk : k = n
    · subst hk
      simp only [removeFs, if_pos rfl]
      exact lookup_none_of_not_mem_keys es k h.1
    · simp [removeFs, lookupFs, hk, ih h.2]

theorem getFsPath_empty_dir (p : List String) (c : String) :
    getFsPath (.dir []) p ≠ some (.file c) := by
  cases p with
  | nil => simp [getFsPath]
  | cons n rest => simp [getFsPath, lookupFs]

end Zenbukko.Migrate

namespace Zenbukko.Migrate

theorem getFsPath_cons_eq (k : String) (v : FsNode) (es : List (String × FsNode))
    (p : List String) : getFsPath (.dir ((k, v) :: es)) (k :: p) = getFsPath v p := by
  simp [getFsPath, lookupFs]

theorem getFsPath_cons_ne (k : String) (v : FsNode) (es : List (String × FsNode))
    (m : String) (p : List String) (h : ¬k = m) :
    getFsPath (.dir ((k, v) :: es)) (m :: p) = getFsPath (.dir es) (m :: p) := by
  simp [getFsPath, lookupFs, h]

theorem getFsPath_lookup_none (es : List (String × FsNode)) (n : String)
    (p : List String) (h : lookupFs es n = none) :
    getFsPath (.dir es) (n :: p) = none := by
  simp [getFsPath, h]

theorem getFsPath_lookup_some (es : List (String × FsNode)) (n : String)
    (child : FsNode) (p : List String) (h : lookupFs es n = some child) :
    getFsPath (.dir es) (n :: p) = getFsPath child p := by
  simp [getFsPath, h]

theorem getFsPath_setFs_eq (es : List (String × FsNode)) (n : String) (v : FsNode)
    (p : List String) : getFsPath (.dir (setFs es n v)) (n :: p) = getFsPath v p := by
  simp [getFsPath, lookup_setFs]

theorem getFsPath_setFs_ne (es : List (String × FsNode)) (n : String) (v : FsNode)
    (m : String) (p : List String) (h : ¬n = m) :
    getFsPath (.dir (setFs es n v)) (m :: p) = getFsPath (.dir es) (m :: p) := by
  simp [getFsPath, lookup_setFs, h]

theorem moveInto_nil (dst : List (String × FsNode)) :
    moveInto [] dst = ([], dst, .moved true) := by
  rw [moveInto]

theorem moveInto_file_conflict (name : String) (rest dst : List (String × FsNode))
    (c : String) (w : FsNode) (h : lookupFs dst name = some w) :
    moveInto ((name, .file c) :: rest) dst
      = ((name, .file c) :: (moveInto rest dst).1, (moveInto rest dst).2.1,
         andStatus (moveInto rest dst).2.2 false) := by
  rw [moveInto, h]

theorem moveInto_file_move (name : String) (rest dst : List (String × FsNode))
    (c : String) (h : lookupFs dst name = none) :
    moveInto ((name, .file c) :: rest) dst
      = moveInto rest (setFs dst name (.file c)) := by
  rw [moveInto, h]

theorem moveInto_dir_absent (name : String)
    (rest dst children : List (String × FsNode))
    (h : lookupFs dst name = none) :
    moveInto ((name, .dir children) :: rest) dst
      = moveInto rest (setFs dst name (.dir children)) := by
  rw [moveInto, h]

theorem moveInto_dir_file (name : String)
    (rest dst children : List (String × FsNode)) (c : String)
    (h : lookupFs dst name = some (.file c)) :
    moveInto ((name, .dir children) :: rest) dst
      = ((name, .dir children) :: rest, dst, .failed) := by
  rw [moveInto, h]

theorem moveInto_dir_dir_failed (name : String)
    (rest dst children d : List (String × FsNode))
    (h : lookupFs dst name = some (.dir d))
    (hc : (moveInto children d).2.2 = .failed) :
    moveInto ((name, .dir children) :: rest) dst
      = ((name, .dir (moveInto children d).1) :: rest,
         setFs dst name (.dir (moveInto children d).2.1), .failed) := by
  rw [moveInto, h]
  dsimp only
  rw [hc]

theorem moveInto_dir_dir_clean (name : String)
    (rest dst children d : List (String × FsNode)) (cfull : Bool)
    (h : lookupFs dst name = some (.dir d))
    (hc : (moveInto children d).2.2 = .moved cfull)
    (hif : (cfull && (moveInto children d).1.isEmpty) = true) :
    moveInto ((name, .dir children) :: rest) dst
      = moveInto rest (setFs dst name (.dir (moveInto children d).2.1)) := by
  rw [moveInto, h]
  dsimp only
  rw [hc]
  dsimp only
  rw [if_pos hif]

theorem moveInto_dir_dir_rem (name : String)
    (rest dst children d : List (String × FsNode)) (cfull : Bool)
    (h : lookupFs dst name = some (.dir d))
    (hc : (moveInto children d).2.2 = .moved cfull)
    (hif : ¬(cfull && (moveInto children d).1.isEmpty) = true) :
    moveInto ((name, .dir children) :: rest) dst
      = ((name, .dir (moveInto children d).1)
           :: (moveInto rest (setFs dst name (.dir (moveInto children d).2.1))).1,
         (moveInto rest (setFs dst name (.dir (moveInto children d).2.1))).2.1,
         andStatus
           (moveInto rest (setFs dst name (.dir (moveInto children d).2.1))).2.2
           false) := by
  rw [moveInto, h]
  dsimp only
  rw [hc]
  dsimp only
  rw [if_neg hif]

end Zenbukko.Migrate

namespace Zenbukko.Migrate

theorem moveInto_spec : ∀ (src dst : List (String × FsNode)),
    (∀ p c, getFsPath (.dir dst) p = some (.file c) →
      getFsPath (.dir (moveInto src dst).2.1) p = some (.file c))
    ∧ (∀ p, (getFsPath (.dir dst) p).isSome →
      (getFsPath (.dir (moveInto src dst).2.1) p).isSome)
    ∧ (∀ p c, getFsPath (.dir src) p = some (.file c) →
      (getFsPath (.dir dst) p).isSome →
      getFsPath (.dir (moveInto src dst).1) p = some (.file c)) := by
  intro src dst
  induction src, dst using moveInto.induct
  case case1 =>
    rename_i dst
    rw [moveInto_nil]
    refine ⟨fun p c h => h, fun p h => h, ?_⟩
    intro p c hp _
    exact absurd hp (getFsPath_empty_dir p c)
  case case2 =>
    rename_i name rest dst a w hlk ih
    obtain ⟨ihPres, ihMono, ihConf⟩ := ih
    rw [moveInto_file_conflict name rest dst a w hlk]
    refine ⟨ihPres, ihMono, ?_⟩
    intro p c hp hs
    cases p with
    | nil => simp [getFsPath] at hp
    | cons m p' =>
      by_cases hn : name = m
      · subst hn
        rw [getFsPath_cons_eq] at hp ⊢
        exact hp
      · rw [getFsPath_cons_ne name _ _ m p' hn] at hp ⊢
        exact ihConf (m :: p') c hp hs
  case case3 =>
    rename_i name rest dst a hlk ih
    obtain ⟨ihPres, ihMono, ihConf⟩ := ih
    rw [moveInto_file_move name rest dst a hlk]
    refine ⟨?_, ?_, ?_⟩
    · intro p c hp
      refine ihPres p c ?_
      cases p with
      | nil => simp [getFsPath] at hp
      | cons m p' =>
        by_cases hn : name = m
        · subst hn
          rw [getFsPath_lookup_none dst name p' hlk] at hp
          cases hp
        · rw [getFsPath_setFs_ne dst name _ m p' hn]
          exact hp
    · intro p hp
      refine ihMono p ?_
      cases p with
      | nil => simp [getFsPath]
      | cons m p' =>
        by_cases hn : name = m
        · subst hn
          rw [getFsPath_lookup_none dst name p' hlk] at hp
          simp at hp
        · rw [getFsPath_setFs_ne dst name _ m p' hn]
          exact hp
    · intro p c hp hs
      cases p with
      | nil => simp [getFsPath] at hp
      | cons m p' =>
        by_cases hn : name = m
        · subst hn
          rw [getFsPath_lookup_none dst name p' hlk] at hs
          simp at hs
        · rw [getFsPath_cons_ne name _ _ m p' hn] at hp
          refine ihConf (m :: p') c hp ?_
          rw [getFsPath_setFs_ne dst name _ m p' hn]
          exact hs
  case case4 =>
    rename_i name rest dst children hlk ih
    obtain ⟨ihPres, ihMono, ihConf⟩ := ih
    rw [moveInto_dir_absent name rest dst children hlk]
    refine ⟨?_, ?_, ?_⟩
    · intro p c hp
      refine ihPres p c ?_
      cases p with
      | nil => simp [getFsPath] at hp
      | cons m p' =>
        by_cases hn : name = m
        · subst hn
          rw [getFsPath_lookup_none dst name p' hlk] at hp
          cases hp
        · rw [getFsPath_setFs_ne dst name _ m p' hn]
          exact hp
    · intro p hp
      refine ihMono p ?_
      cases p with
      | nil => simp [getFsPath]
      | cons m p' =>
        by_cases hn : name = m
        · subst hn
          rw [getFsPath_lookup_none dst name p' hlk] at hp
          simp at hp
        · rw [getFsPath_setFs_ne dst name _ m p' hn]
          exact hp
    · intro p c hp hs
      cases p with
      | nil => simp [getFsPath] at hp
      | cons m p' =>
        by_cases hn : name = m
        · subst hn
          rw [getFsPath_lookup_none dst name p' hlk] at hs
          simp at hs
        · rw [getFsPath_cons_ne name _ _ m p' hn] at hp
          refine ihConf (m :: p') c hp ?_
          rw [getFsPath_setFs_ne dst name _ m p' hn]
          exact hs
  case case5 =>
    rename_i name rest dst children cont hlk
    rw [moveInto_dir_file name rest dst children cont hlk]
    exact ⟨fun p c h => h, fun p h => h, fun p c hp _ => hp⟩
  case case6 =>
    rename_i name rest dst children d hlk cdef hc ih
    obtain ⟨cPres, cMono, cConf⟩ := ih
    rw [moveInto_dir_dir_failed name rest dst children d hlk hc]
    refine ⟨?_, ?_, ?_⟩
    · intro p c hp
      cases p with
      | nil => simp [getFsPath] at hp
      | cons m p' =>
        by_cases hn : name = m
        · subst hn
          rw [getFsPath_lookup_some dst name _ p' hlk] at hp
          rw [getFsPath_setFs_eq]
          exact cPres p' c hp
        · rw [getFsPath_setFs_ne dst name _ m p' hn]
          exact hp
    · intro p hp
      cases p with
      | nil => simp [getFsPath]
      | cons m p' =>
        by_cases hn : name = m
        · subst hn
          rw [getFsPath_lookup_some dst name _ p' hlk] at hp
          rw [getFsPath_setFs_eq]
          exact cMono p' hp
        · rw [getFsPath_setFs_ne dst name _ m p' hn]
          exact hp
    · intro p c hp hs
      cases p with
      | nil => simp [getFsPath] at hp
      | cons m p' =>
        by_cases hn : name = m
        · subst hn
          rw [getFsPath_cons_eq] at hp ⊢
          rw [getFsPath_lookup_some dst name _ p' hlk] at hs
          exact cConf p' c hp hs
        · rw [getFsPath_cons_ne name _ _ m p' hn] at hp ⊢
          exact hp
  case case7 =>
    rename_i name rest dst children d hlk cdef dst1def cfull hc hif ihc ihr
    obtain ⟨cPres, cMono, cConf⟩ := ihc
    obtain ⟨rPres, rMono, rConf⟩ := ihr
    rw [moveInto_dir_dir_clean name rest dst children d cfull hlk hc hif]
    have hempty : (moveInto children d).1 = [] := by
      have hif' := hif
      simp only [Bool.and_eq_true] at hif'
      exact List.isEmpty_iff.mp hif'.2
    refine ⟨?_, ?_, ?_⟩
    · intro p c hp
      cases p with
      | nil => simp [getFsPath] at hp
      | cons m p' =>
        by_cases hn : name = m
        · subst hn
          rw [getFsPath_lookup_some dst name _ p' hlk] at hp
          refine rPres (name :: p') c ?_
          rw [getFsPath_setFs_eq]
          exact cPres p' c hp
        · refine rPres (m :: p') c ?_
          rw [getFsPath_setFs_ne dst name _ m p' hn]
          exact hp
    · intro p hp
      cases p with
      | nil =>
        refine rMono [] ?_
        simp [getFsPath]
      | cons m p' =>
        by_cases hn : name = m
        · subst hn
          rw [getFsPath_lookup_some dst name _ p' hlk] at hp
          refine rMono (name :: p') ?_
          rw [getFsPath_setFs_eq]
          exact cMono p' hp
        · refine rMono (m :: p') ?_
          rw [getFsPath_setFs_ne dst name _ m p' hn]
          exact hp
    · intro p c hp hs
      cases p with
      | nil => simp [getFsPath] at hp
      | cons m p' =>
        by_cases hn : name = m
        · subst hn
          rw [getFsPath_cons_eq] at hp
          rw [getFsPath_lookup_some dst name _ p' hlk] at hs
          have := cConf p' c hp hs
          rw [hempty] at this
          exact absurd this (getFsPath_empty_dir p' c)
        · rw [getFsPath_cons_ne name _ _ m p' hn] at hp
          refine rConf (m :: p') c hp ?_
          rw [getFsPath_setFs_ne dst name _ m p' hn]
          exact hs
  case case8 =>
    rename_i name rest dst children d hlk cdef dst1def cfull hc hif ihc ihr
    obtain ⟨cPres, cMono, cConf⟩ := ihc
    obtain ⟨rPres, rMono, rConf⟩ := ihr
    rw [moveInto_dir_dir_rem name rest dst children d cfull hlk hc hif]
    refine ⟨?_, ?_, ?_⟩
    · intro p c hp
      cases p with
      | nil => simp [getFsPath] at hp
      | cons m p' =>
        by_cases hn : name = m
        · subst hn
          rw [getFsPath_lookup_some dst name _ p' hlk] at hp
          refine rPres (name :: p') c ?_
          rw [getFsPath_setFs_eq]
          exact cPres p' c hp
        · refine rPres (m :: p') c ?_
          rw [getFsPath_setFs_ne dst name _ m p' hn]
          exact hp
    · intro p hp
      cases p with
      | nil =>
        refine rMono [] ?_
        simp [getFsPath]
      | cons m p' =>
        by_cases hn : name = m
        · subst hn
          rw [getFsPath_lookup_some dst name _ p' hlk] at hp
          refine rMono (name :: p') ?_
          rw [getFsPath_setFs_eq]
          exact cMono p' hp
        · refine rMono (m :: p') ?_
          rw [getFsPath_setFs_ne dst name _ m p' hn]
          exact hp
    · intro p c hp hs
      cases p with
      | nil => simp [getFsPath] at hp
      | cons m p' =>
        by_cases hn : name = m
        · subst hn
          rw [getFsPath_cons_eq] at hp ⊢
          rw [getFsPath_lookup_some dst name _ p' hlk] at hs
          exact cConf p' c hp hs
        · rw [getFsPath_cons_ne name _ _ m p' hn] at hp ⊢
          refine rConf (m :: p') c hp ?_
          rw [getFsPath_setFs_ne dst name _ m p' hn]
          exact hs

end Zenbukko.Migrate

namespace Zenbukko.Migrate

/-- Claim C9: legacy chapter-folder migration never overwrites an existing
destination file.  When no destination folder exists (and the course folder
has no duplicate entry names), the legacy folder is renamed: afterwards it no
longer exists and its whole subtree is present unchanged under the numeric
name.  When the destination folder already exists, the merge preserves every
file already below the destination with its content, and any legacy file
whose destination path already exists stays behind in the legacy folder with
its content. -/
theorem migrate_safety (courseDir : List (String × FsNode))
    (legacyName numericName : String) (L : List (String × FsNode))
    (hnames : ¬legacyName = numericName)
    (hleg : lookupFs courseDir legacyName = some (.dir L)) :
    (lookupFs courseDir numericName = none →
      (courseDir.map Prod.fst).Nodup →
      lookupFs (migrateLegacyChapterDir courseDir legacyName numericName).1
          legacyName = none
      ∧ lookupFs (migrateLegacyChapterDir courseDir legacyName numericName).1
          numericName = some (.dir L))
    ∧ (∀ N, lookupFs courseDir numericName = some (.dir N) →
        (∃ N', lookupFs (migrateLegacyChapterDir courseDir legacyName numericName).1
            numericName = some (.dir N')
          ∧ ∀ p c, getFsPath (.dir N) p = some (.file c) →
              getFsPath (.dir N') p = some (.file c))
        ∧ (∀ p c, getFsPath (.dir L) p = some (.file c) →
            (getFsPath (.dir N) p).isSome →
            ∃ L', lookupFs (migrateLegacyChapterDir courseDir legacyName
                numericName).1 legacyName = some (.dir L')
              ∧ getFsPath (.dir L') p = some (.file c))) := by
  have hnames' : ¬numericName = legacyName := fun h => hnames h.symm
  constructor
  · intro hnum hnodup
    unfold migrateLegacyChapterDir
    rw [hleg, hnum]
    dsimp only
    constructor
    · rw [lookup_setFs, if_neg hnames']
      exact lookup_removeFs_self courseDir legacyName hnodup
    · rw [lookup_setFs, if_pos rfl]
  · intro N hnum
    unfold migrateLegacyChapterDir
    rw [hleg, hnum]
    dsimp only
    obtain ⟨mPres, mMono, mConf⟩ := moveInto_spec L N
    cases hst : (moveInto L N).2.2 with
    | failed =>
      dsimp only
      constructor
      · refine ⟨(moveInto L N).2.1, ?_, fun p c h => mPres p c h⟩
        rw [lookup_setFs, if_neg hnames, lookup_setFs, if_pos rfl]
      · intro p c hp hs
        refine ⟨(moveInto L N).1, ?_, mConf p c hp hs⟩
        rw [lookup_setFs, if_pos rfl]
    | moved fully =>
      dsimp only
      by_cases hif : (fully && (moveInto L N).1.isEmpty) = true
      · rw [if_pos hif]
        constructor
        · refine ⟨(moveInto L N).2.1, ?_, fun p c h => mPres p c h⟩
          rw [lookup_removeFs_ne _ _ _ hnames, lookup_setFs, if_pos rfl]
        · intro p c hp hs
          have hfile := mConf p c hp hs
          have hempty : (moveInto L N).1 = [] := by
            simp only [Bool.and_eq_true] at hif
            exact List.isEmpty_iff.mp hif.2
          rw [hempty] at hfile
          exact absurd hfile (getFsPath_empty_dir p c)
      · rw [if_neg hif]
        constructor
        · refine ⟨(moveInto L N).2.1, ?_, fun p c h => mPres p c h⟩
          rw [lookup_setFs, if_neg hnames, lookup_setFs, if_pos rfl]
        · intro p c hp hs
          refine ⟨(moveInto L N).1, ?_, mConf p c hp hs⟩
          rw [lookup_setFs, if_pos rfl]

/-- Witness for migrate_safety: one legacy chapter folder chapter-3 holding a
single media file, migrated to numeric name 03. -/
theorem migrate_safety_witness :
    (lookupFs cexCourseDir "03" = none →
      (cexCourseDir.map Prod.fst).Nodup →
      lookupFs (migrateLegacyChapterDir cexCourseDir "chapter-3" "03").1
          "chapter-3" = none
      ∧ lookupFs (migrateLegacyChapterDir cexCourseDir "chapter-3" "03").1 "03"
          = some (.dir [("lesson-9.ts", .file "media-bytes")]))
    ∧ (∀ N, lookupFs cexCourseDir "03" = some (.dir N) →
        (∃ N', lookupFs (migrateLegacyChapterDir cexCourseDir "chapter-3" "03").1
            "03" = some (.dir N')
          ∧ ∀ p c, getFsPath (.dir N) p = some (.file c) →
              getFsPath (.dir N') p = some (.file c))
        ∧ (∀ p c,
            getFsPath (.dir [("lesson-9.ts", FsNode.file "media-bytes")]) p
              = some (.file c) →
            (getFsPath (.dir N) p).isSome →
            ∃ L', lookupFs (migrateLegacyChapterDir cexCourseDir "chapter-3"
                "03").1 "chapter-3" = some (.dir L')
              ∧ getFsPath (.dir L') p = some (.file c))) :=
  migrate_safety cexCourseDir "chapter-3" "03"
    [("lesson-9.ts", .file "media-bytes")] (by decide) rfl

end Zenbukko.Migrate
